import Mathlib

/-!
Verification of the `thejoker` repository (files `thejoker/sampler/likelihood.py`
and `thejoker/sampler/samples.py`) against its natural-language specification.

The numeric data of the program (numpy float arrays) is embedded as exact
rational data (`ℚ`); floating-point rounding is not modelled.  Transcendental
operations that the program obtains from numpy (`np.log`, `np.sqrt`, `2*np.pi`)
are abstracted as parameters of the embedding: the embedded functions are
polymorphic over a value field `F` together with the abstract operations, so
that every definition stays executable (a witness instantiates `F := ℚ`).
Fallible numpy operations (`np.linalg.solve` raising `LinAlgError` on an
exactly singular matrix) are embedded with `Except`.
-/

namespace TheJoker

namespace Likelihood

open scoped Matrix

/-- Embeds `ATCinv = (A.T * ivar[None])` from `tensor_vector_scalar`
(`likelihood.py` line 65): the transpose of `A` with column `j` scaled by
`ivar j`.  The elementwise product `A.T * ivar[None]` forces the argument `A`
to have one row per observation and one column per linear parameter
(`n` observations, `M` linear parameters): numpy broadcasting of a
`(M, n)`-shaped `A.T` against the `(1, n)`-shaped `ivar[None]` requires the
trailing axis of `A.T` to have length `n`. -/
def ATCinv_mat {n M : ℕ} (A : Matrix (Fin n) (Fin M) ℚ) (ivar : Fin n → ℚ) :
    Matrix (Fin M) (Fin n) ℚ :=
  Matrix.of fun i j => A.transpose i j * ivar j

/-- Embeds `ATCinvA = ATCinv.dot(A)` (`likelihood.py` line 66): the
information (precision) matrix of the linear parameters. -/
def ATCinvA_mat {n M : ℕ} (A : Matrix (Fin n) (Fin M) ℚ) (ivar : Fin n → ℚ) :
    Matrix (Fin M) (Fin M) ℚ :=
  ATCinv_mat A ivar * A

/-- Embeds `np.linalg.solve(B, b)` on a nonsingular matrix by Cramer's rule:
`B⁻¹ b = det(B)⁻¹ • adjugate(B) b`.  (On a singular matrix the caller raises;
see `tensor_vector_scalar`.) -/
def linSolve {M : ℕ} (B : Matrix (Fin M) (Fin M) ℚ) (b : Fin M → ℚ) : Fin M → ℚ :=
  B.det⁻¹ • (B.adjugate *ᵥ b)

/-- Embeds `dy = A.dot(p) - y; chi2 = np.sum(dy**2 * ivar)`
(`likelihood.py` lines 72-73) with `p` the solved linear coefficients. -/
def chi2Of {n M : ℕ} (A : Matrix (Fin n) (Fin M) ℚ) (ivar : Fin n → ℚ)
    (y : Fin n → ℚ) : ℚ :=
  ∑ j, ((A *ᵥ linSolve (ATCinvA_mat A ivar) (ATCinv_mat A ivar *ᵥ y) - y) j) ^ 2 * ivar j

/-- Embeds `tensor_vector_scalar(A, ivar, y)` (`likelihood.py` lines 42-76).
`np.linalg.solve` raises `LinAlgError` when its matrix is exactly singular;
this is the `Except.error` case, produced exactly when the determinant of the
information matrix vanishes. -/
def tensor_vector_scalar {n M : ℕ} (A : Matrix (Fin n) (Fin M) ℚ) (ivar : Fin n → ℚ)
    (y : Fin n → ℚ) :
    Except Unit (Matrix (Fin M) (Fin M) ℚ × (Fin M → ℚ) × ℚ) :=
  if (ATCinvA_mat A ivar).det = 0 then Except.error () else
    Except.ok (ATCinvA_mat A ivar,
      linSolve (ATCinvA_mat A ivar) (ATCinv_mat A ivar *ᵥ y),
      chi2Of A ivar y)

/-- Modelled from the spec: `get_ivar(data, s)` lives in `thejoker/sampler/utils.py`,
which is not under `src/`.  Per the spec, the jitter-adjusted inverse variance is
`ivar_eff = 1 / (1/ivar_base + jitter_variance)`, where the jitter variance is
derived from the fifth nonlinear-parameter entry `s` by a collaborator-specific
unit-convention rule, abstracted here as the function `jv`. -/
def get_ivar {n : ℕ} (jv : ℚ → ℚ) (ivar : Fin n → ℚ) (s : ℚ) : Fin n → ℚ :=
  fun i => 1 / (1 / ivar i + jv s)

/-- The possible value shapes of a numpy result returned by
`marginal_ln_likelihood_body`: a bare scalar NaN, a finite scalar, or a rank-1
array of finite values. -/
inductive NpOut (F : Type) where
  | nanScalar : NpOut F
  | scalar (x : F) : NpOut F
  | vec (xs : List F) : NpOut F
deriving DecidableEq

/-- Embeds `np.atleast_1d` applied to a scalar: a length-1 array. -/
def np_atleast_1d {F : Type} (x : F) : List F := [x]

/-- The sign returned by `np.linalg.slogdet`: `+1`, `-1`, or `0` according to
the sign of the determinant. -/
def slogdetSign (d : ℚ) : ℚ := if 0 < d then 1 else if d < 0 then -1 else 0

/-- Embeds lines 97-110 of `marginal_ln_likelihood` — everything after the
`design_matrix` call of line 95.  In the source these lines are DEAD CODE:
the call at line 95 raises `TypeError` on every invocation (see
`marginal_ln_likelihood` below), and even a repaired call would hand over the
linear-params × observations matrix that `tensor_vector_scalar`'s
broadcasting rejects.  This definition analyses the behaviour those lines
would have, with a design matrix `A` supplied in the orientation
`tensor_vector_scalar` requires and `s = nonlinear_p[4]` as a parameter.
`flog` abstracts `np.log` applied to an exact rational, `twoPi` the float
`2*np.pi`, and `jv` the jitter-variance rule of the `get_ivar` collaborator.
The degenerate branch (`slogdet` sign not `+1`) returns the scalar NaN
sentinel; the success branch returns `0.5*logdet - 0.5*np.atleast_1d(chi2)`,
a length-1 array. -/
def marginal_ln_likelihood_body {n M : ℕ} {F : Type} [Field F] (flog : F → F) (twoPi : F)
    (jv : ℚ → ℚ) (A : Matrix (Fin n) (Fin M) ℚ) (s : ℚ)
    (ivarBase : Fin n → ℚ) (y : Fin n → ℚ) : Except Unit (NpOut F) :=
  match tensor_vector_scalar A (get_ivar jv ivarBase s) y with
  | Except.error e => Except.error e
  | Except.ok (ATCinvA, _, chi2) =>
    if slogdetSign ATCinvA.det ≠ 1 then Except.ok NpOut.nanScalar
    else
      Except.ok (NpOut.vec ((np_atleast_1d ((chi2 : ℚ) : F)).map
        (fun c => (1 / 2 : F) * (flog ((|ATCinvA.det| : ℚ) : F) +
          ∑ i, flog ((get_ivar jv ivarBase s i : ℚ) / twoPi)) - (1 / 2 : F) * c)))

/-- Closed form of `marginal_ln_likelihood_body`: the three outcomes of the
dead body are decided by the sign of the determinant of the information
matrix. -/
theorem marginal_ln_likelihood_cases {n M : ℕ} {F : Type} [Field F] (flog : F → F)
    (twoPi : F) (jv : ℚ → ℚ) (A : Matrix (Fin n) (Fin M) ℚ) (s : ℚ)
    (ivarBase : Fin n → ℚ) (y : Fin n → ℚ) :
    marginal_ln_likelihood_body flog twoPi jv A s ivarBase y =
      (if (ATCinvA_mat A (get_ivar jv ivarBase s)).det = 0 then Except.error ()
       else if (ATCinvA_mat A (get_ivar jv ivarBase s)).det < 0 then
         Except.ok NpOut.nanScalar
       else
         Except.ok (NpOut.vec
           [(1 / 2 : F) * (flog ((|(ATCinvA_mat A (get_ivar jv ivarBase s)).det| : ℚ) : F) +
              ∑ i, flog ((get_ivar jv ivarBase s i : ℚ) / twoPi)) -
            (1 / 2 : F) * ((chi2Of A (get_ivar jv ivarBase s) y : ℚ) : F)])) := by
  classical
  unfold marginal_ln_likelihood_body tensor_vector_scalar
  by_cases h0 : (ATCinvA_mat A (get_ivar jv ivarBase s)).det = 0
  · simp [h0]
  · by_cases hneg : (ATCinvA_mat A (get_ivar jv ivarBase s)).det < 0
    · have : slogdetSign (ATCinvA_mat A (get_ivar jv ivarBase s)).det = -1 := by
        simp [slogdetSign, hneg, not_lt.mpr (le_of_lt hneg)]
      simp [h0, hneg, this]
      norm_num
    · have hpos : 0 < (ATCinvA_mat A (get_ivar jv ivarBase s)).det := by
        rcases lt_trichotomy (ATCinvA_mat A (get_ivar jv ivarBase s)).det 0 with h | h | h
        · exact absurd h hneg
        · exact absurd h h0
        · exact h
      have : slogdetSign (ATCinvA_mat A (get_ivar jv ivarBase s)).det = 1 := by
        simp [slogdetSign, hpos]
      simp [h0, hneg, this, np_atleast_1d]

/-- Embeds `design_matrix(nonlinear_p, data, jparams)` (`likelihood.py` lines
11-40).  The callee has THREE required parameters; its body computes
`zdot = rv_from_elements(times=t, P=P, K=1., e=ecc, omega=omega,
phi0=phi0 - 2*np.pi*((t_offset/P) % 1.))` and returns
`np.hstack((zdot[:,None], np.vander(t, N=n_terms, increasing=True))).T` —
one row per LINEAR PARAMETER and one column per observation: row 0 is the
unit-amplitude radial-velocity response, row `k+1` is `t^k`.
`rv_from_elements` lives in `thejoker/celestialmechanics`, not under `src/`,
and is abstracted as the per-epoch function `rvfn(time, P, e, omega, phi0)`
(its `K` argument is the constant `1.`); `nTerms` stands for
`jparams.trends[0].n_terms`; `twoPiQ` abstracts the float `2*np.pi`; the
float modulus `x % 1.` is `Int.fract`.  A zero period (an `inf` under float
division) is outside every claim and not modelled. -/
def design_matrix {n : ℕ} (rvfn : ℚ → ℚ → ℚ → ℚ → ℚ → ℚ) (twoPiQ : ℚ)
    (nonlinear_p : Fin 5 → ℚ) (t : Fin n → ℚ) (t_offset : ℚ) (nTerms : ℕ) :
    Matrix (Fin (nTerms + 1)) (Fin n) ℚ :=
  Matrix.of fun i j =>
    if i.val = 0 then
      rvfn (t j) (nonlinear_p 0) (nonlinear_p 2) (nonlinear_p 3)
        (nonlinear_p 1 - twoPiQ * Int.fract (t_offset / nonlinear_p 0))
    else t j ^ (i.val - 1)

/-- Row 0 of the design matrix is the unit-amplitude radial-velocity
response with the phase correction `phi0 − 2π·((t_offset/P) mod 1)`. -/
theorem design_matrix_row_zero {n : ℕ} (rvfn : ℚ → ℚ → ℚ → ℚ → ℚ → ℚ) (twoPiQ : ℚ)
    (nonlinear_p : Fin 5 → ℚ) (t : Fin n → ℚ) (t_offset : ℚ) (nTerms : ℕ) (j : Fin n) :
    design_matrix rvfn twoPiQ nonlinear_p t t_offset nTerms ⟨0, Nat.succ_pos nTerms⟩ j =
      rvfn (t j) (nonlinear_p 0) (nonlinear_p 2) (nonlinear_p 3)
        (nonlinear_p 1 - twoPiQ * Int.fract (t_offset / nonlinear_p 0)) := by
  simp [design_matrix]

/-- Row `k+1` of the design matrix is the Vandermonde trend row `t^k`:
together with `design_matrix_row_zero` this exhibits the linear-params ×
observations orientation produced by the trailing `.T`. -/
theorem design_matrix_row_trend {n : ℕ} (rvfn : ℚ → ℚ → ℚ → ℚ → ℚ → ℚ) (twoPiQ : ℚ)
    (nonlinear_p : Fin 5 → ℚ) (t : Fin n → ℚ) (t_offset : ℚ) (nTerms : ℕ)
    (j : Fin n) (k : ℕ) (hk : k + 1 < nTerms + 1) :
    design_matrix rvfn twoPiQ nonlinear_p t t_offset nTerms ⟨k + 1, hk⟩ j = t j ^ k := by
  simp [design_matrix]

/-- The Python exceptions of the likelihood module. -/
inductive PyErr where
  | typeError : PyErr
  | linAlgError : PyErr
deriving DecidableEq

/-- The call `A = design_matrix(nonlinear_p, data)` at `likelihood.py` line
95.  `design_matrix` (lines 11-40, embedded above) declares three required
parameters `(nonlinear_p, data, jparams)` and the call supplies two, so
Python raises `TypeError` at the call site, before the callee's body runs:
the call has no successful outcome, which the empty success type records. -/
def design_matrix_line95_call {n : ℕ} (nonlinear_p : Fin 5 → ℚ) (t : Fin n → ℚ)
    (t_offset : ℚ) : Except PyErr Empty :=
  Except.error PyErr.typeError

/-- Embeds `marginal_ln_likelihood(nonlinear_p, data)` (`likelihood.py` lines
78-110) faithfully.  Its first statement, `A = design_matrix(nonlinear_p,
data)` (line 95), omits `design_matrix`'s required third argument `jparams`,
so the `TypeError` propagates on EVERY call and the remainder of the body
(lines 97-110, analysed as `marginal_ln_likelihood_body`) is dead code.
Even were the call repaired, the callee's linear-params × observations
result would break the `A.T * ivar[None]` broadcasting inside
`tensor_vector_scalar` for any non-square system.  The observation set
enters as its components (epochs `t`, offset `t_offset`, base inverse
variances `ivarBase`, radial velocities `y`); `F` is the value field of the
never-produced numpy result. -/
def marginal_ln_likelihood {n : ℕ} {F : Type} (nonlinear_p : Fin 5 → ℚ)
    (t : Fin n → ℚ) (t_offset : ℚ) (ivarBase : Fin n → ℚ) (y : Fin n → ℚ) :
    Except PyErr (NpOut F) :=
  match design_matrix_line95_call nonlinear_p t t_offset with
  | Except.error e => Except.error e
  | Except.ok A => A.elim

/-- Claim C1 (code bug): for every length-5 nonlinear parameter vector and
observation set, `marginal_ln_likelihood` raises `TypeError` — line 95 calls
the three-parameter `design_matrix` with two arguments — so it never reaches
the solve or the sign gate and never returns the NaN sentinel (the claimed
degenerate-case handling lives in dead code; see
`marginal_ln_likelihood_body_gate_behavior`). -/
theorem marginal_ln_likelihood_raises_typeerror {n : ℕ} {F : Type}
    (nonlinear_p : Fin 5 → ℚ) (t : Fin n → ℚ) (t_offset : ℚ)
    (ivarBase : Fin n → ℚ) (y : Fin n → ℚ) :
    marginal_ln_likelihood nonlinear_p t t_offset ivarBase y =
      (Except.error PyErr.typeError : Except PyErr (NpOut F)) ∧
    marginal_ln_likelihood nonlinear_p t t_offset ivarBase y ≠
      (Except.ok NpOut.nanScalar : Except PyErr (NpOut F)) :=
  ⟨rfl, fun h => Except.noConfusion h⟩

/-- Claim C3 (code bug): no call of `marginal_ln_likelihood` ever returns
`0.5·logdet − 0.5·chi2` — or any value at all: every call raises `TypeError`
at line 95 before the solve and the gate (the claimed formula is what the
dead body would return; see `marginal_ln_likelihood_body_success_formula`). -/
theorem marginal_ln_likelihood_never_returns {n : ℕ} {F : Type}
    (nonlinear_p : Fin 5 → ℚ) (t : Fin n → ℚ) (t_offset : ℚ)
    (ivarBase : Fin n → ℚ) (y : Fin n → ℚ) :
    (∀ out : NpOut F, marginal_ln_likelihood nonlinear_p t t_offset ivarBase y ≠
      Except.ok out) ∧
    marginal_ln_likelihood nonlinear_p t t_offset ivarBase y =
      (Except.error PyErr.typeError : Except PyErr (NpOut F)) :=
  ⟨fun _ h => Except.noConfusion h, rfl⟩

/-- Claim C10 (code bug): neither claimed outcome shape is reachable — every
call of `marginal_ln_likelihood` raises `TypeError` at line 95, so it
returns neither a rank-1 length-1 array, nor a bare scalar NaN, nor a finite
scalar (the claimed shape dichotomy is a property of the dead body; see
`marginal_ln_likelihood_body_output_shape`). -/
theorem marginal_ln_likelihood_no_output {n : ℕ} {F : Type}
    (nonlinear_p : Fin 5 → ℚ) (t : Fin n → ℚ) (t_offset : ℚ)
    (ivarBase : Fin n → ℚ) (y : Fin n → ℚ) :
    (∀ l : List F, marginal_ln_likelihood nonlinear_p t t_offset ivarBase y ≠
      Except.ok (NpOut.vec l)) ∧
    (∀ x : F, marginal_ln_likelihood nonlinear_p t t_offset ivarBase y ≠
      Except.ok (NpOut.scalar x)) ∧
    marginal_ln_likelihood nonlinear_p t t_offset ivarBase y ≠
      (Except.ok NpOut.nanScalar : Except PyErr (NpOut F)) ∧
    marginal_ln_likelihood nonlinear_p t t_offset ivarBase y =
      (Except.error PyErr.typeError : Except PyErr (NpOut F)) :=
  ⟨fun _ h => Except.noConfusion h, fun _ h => Except.noConfusion h,
   fun h => Except.noConfusion h, rfl⟩

/-- The scaled transpose computed by the source equals `Aᵀ · diag(ivar)`:
the elementwise scale-then-multiply avoids materializing the diagonal. -/
theorem ATCinv_mat_eq_diag {n M : ℕ} (A : Matrix (Fin n) (Fin M) ℚ) (ivar : Fin n → ℚ) :
    ATCinv_mat A ivar = A.transpose * Matrix.diagonal ivar := by
  ext i j
  simp [ATCinv_mat, Matrix.mul_diagonal]

/-- The information matrix computed by the source equals `Aᵀ · diag(ivar) · A`. -/
theorem ATCinvA_mat_eq_diag {n M : ℕ} (A : Matrix (Fin n) (Fin M) ℚ) (ivar : Fin n → ℚ) :
    ATCinvA_mat A ivar = A.transpose * Matrix.diagonal ivar * A := by
  rw [ATCinvA_mat, ATCinv_mat_eq_diag]

/-- The embedded `np.linalg.solve` really solves the linear system whenever its
matrix is nonsingular. -/
theorem linSolve_mulVec {M : ℕ} (B : Matrix (Fin M) (Fin M) ℚ) (b : Fin M → ℚ)
    (hd : B.det ≠ 0) : B *ᵥ linSolve B b = b := by
  unfold linSolve
  rw [Matrix.mulVec_smul, Matrix.mulVec_mulVec, Matrix.mul_adjugate,
    Matrix.smul_mulVec_assoc, Matrix.one_mulVec]
  exact inv_smul_smul₀ hd b

/-- Claim C2, counterexample: `tensor_vector_scalar` does not return
`A·diag(ivar)·Aᵀ` for its argument `A`.  At the square design matrix
`A = [[1,2],[3,4]]` (where the numpy broadcasting happens to go through even
for the claimed linear-params × observations orientation), unit weights and
zero observations, the returned precision matrix is `Aᵀ·diag(ivar)·A =
[[10,14],[14,20]]`, which differs from the claimed `A·diag(ivar)·Aᵀ =
[[5,11],[11,25]]`. -/
theorem tensor_vector_scalar_orientation_cex :
    tensor_vector_scalar !![(1 : ℚ), 2; 3, 4] ![1, 1] ![0, 0] =
      Except.ok (!![(10 : ℚ), 14; 14, 20], ![0, 0], 0) ∧
    !![(10 : ℚ), 14; 14, 20] ≠
      !![(1 : ℚ), 2; 3, 4] * Matrix.diagonal ![1, 1] * (!![(1 : ℚ), 2; 3, 4]).transpose := by
  have hP : ATCinvA_mat !![(1 : ℚ), 2; 3, 4] ![1, 1] = !![(10 : ℚ), 14; 14, 20] := by
    ext i j
    fin_cases i <;> fin_cases j <;>
      simp [ATCinvA_mat, ATCinv_mat, Matrix.mul_apply, Fin.sum_univ_two] <;> norm_num
  have hdet : (ATCinvA_mat !![(1 : ℚ), 2; 3, 4] ![1, 1]).det = 4 := by
    rw [hP]
    simp [Matrix.det_fin_two]
    norm_num
  have hrhs : ATCinv_mat !![(1 : ℚ), 2; 3, 4] ![1, 1] *ᵥ ![0, 0] = 0 := by
    funext i
    fin_cases i <;>
      simp [ATCinv_mat, Matrix.mulVec, Matrix.dotProduct, Fin.sum_univ_two]
  have hc : linSolve (ATCinvA_mat !![(1 : ℚ), 2; 3, 4] ![1, 1])
      (ATCinv_mat !![(1 : ℚ), 2; 3, 4] ![1, 1] *ᵥ ![0, 0]) = ![0, 0] := by
    rw [hrhs]
    funext i
    fin_cases i <;> simp [linSolve, Matrix.mulVec_zero]
  have hchi : chi2Of !![(1 : ℚ), 2; 3, 4] ![1, 1] ![0, 0] = 0 := by
    rw [chi2Of, hc]
    simp [Matrix.mulVec, Matrix.dotProduct, Fin.sum_univ_two]
  constructor
  · rw [tensor_vector_scalar, if_neg (by rw [hdet]; norm_num), hchi, hc, hP]
  · intro h
    have h00 := congrFun (congrFun h 0) 0
    simp [Matrix.mul_apply, Matrix.diagonal, Fin.sum_univ_two, Matrix.vecHead,
      Matrix.vecTail] at h00
    norm_num at h00

/-- Claim C2, amended: `tensor_vector_scalar(A, ivar, y)` takes `A` with one
row per observation and one column per linear parameter (the orientation its
elementwise numpy operations require).  Whenever the information matrix
`Aᵀ·diag(ivar)·A` is nonsingular it returns that matrix as the precision
matrix, coefficients solving `precision · c = Aᵀ·diag(ivar)·y`, and
`chi2 = Σ ivar·(A·c − y)²`; on a singular information matrix the underlying
solve raises instead. -/
theorem tensor_vector_scalar_normal_equations {n M : ℕ} (A : Matrix (Fin n) (Fin M) ℚ)
    (ivar : Fin n → ℚ) (y : Fin n → ℚ)
    (hd : (A.transpose * Matrix.diagonal ivar * A).det ≠ 0) :
    tensor_vector_scalar A ivar y =
      Except.ok (A.transpose * Matrix.diagonal ivar * A,
        linSolve (A.transpose * Matrix.diagonal ivar * A)
          ((A.transpose * Matrix.diagonal ivar) *ᵥ y),
        ∑ j, ivar j *
          ((A *ᵥ linSolve (A.transpose * Matrix.diagonal ivar * A)
              ((A.transpose * Matrix.diagonal ivar) *ᵥ y) - y) j) ^ 2) ∧
    (A.transpose * Matrix.diagonal ivar * A) *ᵥ
        linSolve (A.transpose * Matrix.diagonal ivar * A)
          ((A.transpose * Matrix.diagonal ivar) *ᵥ y) =
      (A.transpose * Matrix.diagonal ivar) *ᵥ y := by
  rw [← ATCinvA_mat_eq_diag, ← ATCinv_mat_eq_diag]
  have hd' : (ATCinvA_mat A ivar).det ≠ 0 := by
    rw [ATCinvA_mat_eq_diag]; exact hd
  constructor
  · rw [tensor_vector_scalar, if_neg hd']
    have hchi : chi2Of A ivar y =
        ∑ j, ivar j *
          ((A *ᵥ linSolve (ATCinvA_mat A ivar) (ATCinv_mat A ivar *ᵥ y) - y) j) ^ 2 := by
      rw [chi2Of]
      exact Finset.sum_congr rfl fun j _ => mul_comm _ _
    rw [hchi]
  · exact linSolve_mulVec _ _ hd'

/-- Claim C2, witness: at the identity design matrix with unit weights the
amended statement evaluates concretely. -/
theorem tensor_vector_scalar_normal_equations_witness :
    tensor_vector_scalar !![(1 : ℚ), 0; 0, 1] ![1, 1] ![3, 5] =
      Except.ok ((!![(1 : ℚ), 0; 0, 1]).transpose * Matrix.diagonal ![1, 1] * !![(1 : ℚ), 0; 0, 1],
        linSolve ((!![(1 : ℚ), 0; 0, 1]).transpose * Matrix.diagonal ![1, 1] * !![(1 : ℚ), 0; 0, 1])
          (((!![(1 : ℚ), 0; 0, 1]).transpose * Matrix.diagonal ![1, 1]) *ᵥ ![3, 5]),
        ∑ j : Fin 2, (![1, 1] : Fin 2 → ℚ) j *
          (((!![(1 : ℚ), 0; 0, 1] *ᵥ
              linSolve ((!![(1 : ℚ), 0; 0, 1]).transpose * Matrix.diagonal ![1, 1] * !![(1 : ℚ), 0; 0, 1])
                (((!![(1 : ℚ), 0; 0, 1]).transpose * Matrix.diagonal ![1, 1]) *ᵥ ![3, 5]) - ![3, 5] :
              Fin 2 → ℚ)) j) ^ 2) ∧
    ((!![(1 : ℚ), 0; 0, 1]).transpose * Matrix.diagonal ![1, 1] * !![(1 : ℚ), 0; 0, 1]) *ᵥ
        linSolve ((!![(1 : ℚ), 0; 0, 1]).transpose * Matrix.diagonal ![1, 1] * !![(1 : ℚ), 0; 0, 1])
          (((!![(1 : ℚ), 0; 0, 1]).transpose * Matrix.diagonal ![1, 1]) *ᵥ ![3, 5]) =
      ((!![(1 : ℚ), 0; 0, 1]).transpose * Matrix.diagonal ![1, 1]) *ᵥ ![3, 5] :=
  tensor_vector_scalar_normal_equations !![(1 : ℚ), 0; 0, 1] ![1, 1] ![3, 5] (by
    have : ((!![(1 : ℚ), 0; 0, 1]).transpose * Matrix.diagonal ![1, 1] * !![(1 : ℚ), 0; 0, 1]).det = 1 := by
      simp [Matrix.det_fin_two, Matrix.mul_apply, Matrix.diagonal, Fin.sum_univ_two,
        Matrix.vecHead, Matrix.vecTail]
    rw [this]; norm_num)

/-- Dead-code analysis: at the rank-deficient design matrix
`A = [[1,1],[1,1]]` (duplicate basis rows) with unit base inverse variance
and zero jitter, the information matrix is exactly singular, so even the
dead remainder of the body would raise `LinAlgError` in the solve before the
sign gate is reached — it would not return the NaN sentinel there. -/
theorem marginal_ln_likelihood_singular_cex :
    marginal_ln_likelihood_body (fun x : ℚ => x) 1 (fun _ => 0) !![(1 : ℚ), 1; 1, 1] 0 ![1, 1] ![0, 0] =
      Except.error () ∧
    marginal_ln_likelihood_body (fun x : ℚ => x) 1 (fun _ => 0) !![(1 : ℚ), 1; 1, 1] 0 ![1, 1] ![0, 0] ≠
      Except.ok NpOut.nanScalar := by
  have hdet : (ATCinvA_mat !![(1 : ℚ), 1; 1, 1] (get_ivar (fun _ => 0) ![1, 1] 0)).det = 0 := by
    simp [ATCinvA_mat, ATCinv_mat, get_ivar, Matrix.det_fin_two, Matrix.mul_apply,
      Fin.sum_univ_two, Matrix.vecHead, Matrix.vecTail]
  have h := marginal_ln_likelihood_cases (fun x : ℚ => x) 1 (fun _ => 0)
    !![(1 : ℚ), 1; 1, 1] 0 ![1, 1] ![0, 0]
  rw [if_pos hdet] at h
  refine ⟨h, ?_⟩
  rw [h]
  intro hcon
  cases hcon

/-- Dead-code analysis: the outcome of the dead body is decided by the
determinant of the information matrix of the linear solve.  When the matrix
is exactly singular (e.g. a rank-deficient design matrix), the solve's
`LinAlgError` propagates.  When the solve succeeds but the signed
log-determinant's sign is not `+1` (negative determinant), the body does not
raise and returns the NaN sentinel.  Otherwise it returns a finite length-1
array. -/
theorem marginal_ln_likelihood_gate_behavior {n M : ℕ} {F : Type} [Field F] (flog : F → F)
    (twoPi : F) (jv : ℚ → ℚ) (A : Matrix (Fin n) (Fin M) ℚ) (s : ℚ) (ivarBase y : Fin n → ℚ) :
    ((ATCinvA_mat A (get_ivar jv ivarBase s)).det = 0 →
      marginal_ln_likelihood_body flog twoPi jv A s ivarBase y = Except.error ()) ∧
    ((ATCinvA_mat A (get_ivar jv ivarBase s)).det < 0 →
      marginal_ln_likelihood_body flog twoPi jv A s ivarBase y = Except.ok NpOut.nanScalar) ∧
    (0 < (ATCinvA_mat A (get_ivar jv ivarBase s)).det →
      ∃ v : F, marginal_ln_likelihood_body flog twoPi jv A s ivarBase y =
        Except.ok (NpOut.vec [v])) := by
  rw [marginal_ln_likelihood_cases]
  refine ⟨fun h0 => by rw [if_pos h0], fun hneg => ?_, fun hpos => ?_⟩
  · rw [if_neg (ne_of_lt hneg), if_pos hneg]
  · rw [if_neg (ne_of_gt hpos), if_neg (not_lt.mpr (le_of_lt hpos))]
    exact ⟨_, rfl⟩

/-- Dead-code analysis, concrete instance: a negative-determinant
information matrix (reachable in the body when the jitter rule makes the
effective inverse variance negative) would take the NaN branch without
raising. -/
theorem marginal_ln_likelihood_gate_behavior_witness :
    (ATCinvA_mat !![(1 : ℚ)] (get_ivar (fun _ => -2) ![1] 0)).det < 0 ∧
    marginal_ln_likelihood_body (fun x : ℚ => x) 1 (fun _ => -2) !![(1 : ℚ)] 0 ![1] ![0] =
      Except.ok NpOut.nanScalar := by
  have hdet : (ATCinvA_mat !![(1 : ℚ)] (get_ivar (fun _ => -2) ![1] 0)).det = -1 := by
    simp [ATCinvA_mat, ATCinv_mat, get_ivar, Matrix.det_fin_one, Matrix.mul_apply,
      Fin.sum_univ_one, Matrix.vecHead]
    norm_num
  have hneg : (ATCinvA_mat !![(1 : ℚ)] (get_ivar (fun _ => -2) ![1] 0)).det < 0 := by
    rw [hdet]; norm_num
  exact ⟨hneg, (marginal_ln_likelihood_gate_behavior (fun x : ℚ => x) 1 (fun _ => -2)
    !![(1 : ℚ)] 0 ![1] ![0]).2.1 hneg⟩

/-- Dead-code analysis: when the linear solve succeeds and the
positive-definiteness gate passes (positive determinant), the dead body
returns `0.5·logdet − 0.5·chi2`, where `logdet` is the log-determinant of
the precision matrix accumulated with the Gaussian normalization term
`Σ log(ivar_eff / 2π)` over the observations, `ivar_eff` being the
jitter-adjusted inverse variance derived from the fifth parameter entry. -/
theorem marginal_ln_likelihood_success_formula {n M : ℕ} {F : Type} [Field F] (flog : F → F)
    (twoPi : F) (jv : ℚ → ℚ) (A : Matrix (Fin n) (Fin M) ℚ) (s : ℚ) (ivarBase y : Fin n → ℚ)
    (P : Matrix (Fin M) (Fin M) ℚ) (c : Fin M → ℚ) (chi2 : ℚ)
    (hT : tensor_vector_scalar A (get_ivar jv ivarBase s) y = Except.ok (P, c, chi2))
    (hpos : 0 < P.det) :
    marginal_ln_likelihood_body flog twoPi jv A s ivarBase y =
      Except.ok (NpOut.vec [(1 / 2 : F) * (flog ((P.det : ℚ) : F) +
        ∑ i, flog ((get_ivar jv ivarBase s i : ℚ) / twoPi)) -
        (1 / 2 : F) * ((chi2 : ℚ) : F)]) := by
  rw [tensor_vector_scalar] at hT
  by_cases h0 : (ATCinvA_mat A (get_ivar jv ivarBase s)).det = 0
  · rw [if_pos h0] at hT; cases hT
  · rw [if_neg h0] at hT
    simp only [Except.ok.injEq, Prod.mk.injEq] at hT
    obtain ⟨hP, _, hchi⟩ := hT
    subst hP
    subst hchi
    rw [marginal_ln_likelihood_cases, if_neg h0, if_neg (not_lt.mpr (le_of_lt hpos)),
      abs_of_pos hpos]

/-- Dead-code analysis, concrete instance: a one-observation, one-parameter
instance passing the gate, evaluated with `F := ℚ` and the abstract log
instantiated as the identity. -/
theorem marginal_ln_likelihood_success_formula_witness :
    marginal_ln_likelihood_body (fun x : ℚ => x) 1 (fun _ => 0) !![(1 : ℚ)] 0 ![1] ![2] =
      Except.ok (NpOut.vec [(1 : ℚ)]) := by
  have hP : ATCinvA_mat !![(1 : ℚ)] (get_ivar (fun _ => 0) ![1] 0) = !![(1 : ℚ)] := by
    ext i j
    fin_cases i <;> fin_cases j <;>
      simp [ATCinvA_mat, ATCinv_mat, get_ivar, Matrix.mul_apply, Fin.sum_univ_one]
  have hrhs : ATCinv_mat !![(1 : ℚ)] (get_ivar (fun _ => 0) ![1] 0) *ᵥ ![2] = ![2] := by
    funext i
    fin_cases i <;>
      simp [ATCinv_mat, get_ivar, Matrix.mulVec, Matrix.dotProduct, Fin.sum_univ_one]
  have hc : linSolve (ATCinvA_mat !![(1 : ℚ)] (get_ivar (fun _ => 0) ![1] 0))
      (ATCinv_mat !![(1 : ℚ)] (get_ivar (fun _ => 0) ![1] 0) *ᵥ ![2]) = ![2] := by
    rw [hrhs, hP]
    funext i
    fin_cases i <;>
      simp [linSolve, Matrix.adjugate_fin_one, Matrix.det_fin_one, Matrix.mulVec,
        Matrix.dotProduct, Fin.sum_univ_one]
  have hchi : chi2Of !![(1 : ℚ)] (get_ivar (fun _ => 0) ![1] 0) ![2] = 0 := by
    rw [chi2Of, hc]
    simp [Matrix.mulVec, Matrix.dotProduct, Fin.sum_univ_one]
  have hT : tensor_vector_scalar !![(1 : ℚ)] (get_ivar (fun _ => 0) ![1] 0) ![2] =
      Except.ok (!![(1 : ℚ)], ![2], 0) := by
    rw [tensor_vector_scalar, if_neg (by rw [hP, Matrix.det_fin_one]; norm_num), hchi, hc, hP]
  have h := marginal_ln_likelihood_success_formula (fun x : ℚ => x) 1 (fun _ => 0)
    !![(1 : ℚ)] 0 ![1] ![2] !![(1 : ℚ)] ![2] 0 hT (by rw [Matrix.det_fin_one]; norm_num)
  rw [h, Matrix.det_fin_one]
  norm_num [get_ivar, Fin.sum_univ_one]

/-- Evaluation helper: the concrete gate-passing instance of the dead body
returns the length-1 array `[1]`. -/
theorem marginal_ln_likelihood_concrete_eval :
    marginal_ln_likelihood_body (fun x : ℚ => x) 1 (fun _ => 0) !![(1 : ℚ)] 0 ![1] ![2] =
      Except.ok (NpOut.vec [(1 : ℚ)]) := by
  have hP : ATCinvA_mat !![(1 : ℚ)] (get_ivar (fun _ => 0) ![1] 0) = !![(1 : ℚ)] := by
    ext i j
    fin_cases i <;> fin_cases j <;>
      simp [ATCinvA_mat, ATCinv_mat, get_ivar, Matrix.mul_apply, Fin.sum_univ_one]
  have hdet : (ATCinvA_mat !![(1 : ℚ)] (get_ivar (fun _ => 0) ![1] 0)).det = 1 := by
    rw [hP, Matrix.det_fin_one]
    simp
  have hchi : chi2Of !![(1 : ℚ)] (get_ivar (fun _ => 0) ![1] 0) ![2] = 0 := by
    rw [chi2Of]
    have hrhs : ATCinv_mat !![(1 : ℚ)] (get_ivar (fun _ => 0) ![1] 0) *ᵥ ![2] = ![2] := by
      funext i
      fin_cases i <;>
        simp [ATCinv_mat, get_ivar, Matrix.mulVec, Matrix.dotProduct, Fin.sum_univ_one]
    rw [hrhs, hP]
    simp [linSolve, Matrix.adjugate_fin_one, Matrix.det_fin_one, Matrix.mulVec,
      Matrix.dotProduct, Fin.sum_univ_one]
  rw [marginal_ln_likelihood_cases, if_neg (by rw [hdet]; norm_num),
    if_neg (by rw [hdet]; norm_num), hchi, hdet]
  norm_num [get_ivar, Fin.sum_univ_one]

/-- Dead-code analysis: the two value-producing outcomes of the dead body
differ in shape — the gate-passing branch always returns a rank-1, length-1
array (the scalar `chi2` passes through `np.atleast_1d`), while the
degenerate branch returns a bare scalar NaN; no input produces a finite
scalar. -/
theorem marginal_ln_likelihood_output_shape {n M : ℕ} {F : Type} [Field F] (flog : F → F)
    (twoPi : F) (jv : ℚ → ℚ) (A : Matrix (Fin n) (Fin M) ℚ) (s : ℚ) (ivarBase y : Fin n → ℚ) :
    (∀ x : F, marginal_ln_likelihood_body flog twoPi jv A s ivarBase y ≠
      Except.ok (NpOut.scalar x)) ∧
    (∀ l : List F, marginal_ln_likelihood_body flog twoPi jv A s ivarBase y =
      Except.ok (NpOut.vec l) → l.length = 1) := by
  rw [marginal_ln_likelihood_cases]
  split_ifs with h0 hneg
  · refine ⟨fun x hx => ?_, fun l hl => ?_⟩
    · cases hx
    · cases hl
  · constructor
    · intro x hx
      injection hx with h
      cases h
    · intro l hl
      injection hl with h
      cases h
  · constructor
    · intro x hx
      injection hx with h
      cases h
    · intro l hl
      injection hl with h
      injection h with h2
      rw [← h2]
      rfl

/-- Dead-code analysis, concrete instance: at a concrete gate-passing input
the body's result is the length-1 array `[1]`, never a finite scalar. -/
theorem marginal_ln_likelihood_output_shape_witness :
    marginal_ln_likelihood_body (fun x : ℚ => x) 1 (fun _ => 0) !![(1 : ℚ)] 0 ![1] ![2] ≠
      Except.ok (NpOut.scalar 1) ∧
    ([(1 : ℚ)]).length = 1 :=
  ⟨(marginal_ln_likelihood_output_shape (fun x : ℚ => x) 1 (fun _ => 0)
      !![(1 : ℚ)] 0 ![1] ![2]).1 1,
   (marginal_ln_likelihood_output_shape (fun x : ℚ => x) 1 (fun _ => 0)
      !![(1 : ℚ)] 0 ![1] ![2]).2 [(1 : ℚ)] marginal_ln_likelihood_concrete_eval⟩

end Likelihood

namespace Samples

/-!
Embedding of `thejoker/sampler/samples.py`.  numpy arrays are modelled as
views into a global store of buffers, so that the aliasing behaviour of
`copy.copy` and of basic slicing (which returns views, not copies) is
representable.  Quantities' units play no role in the claims under audit and
are not modelled; values are exact rationals.
-/

/-- A numpy array (view): a buffer index into the global `Store`, an offset
into that buffer, and a shape.  Basic slicing produces a new `Arr` sharing
the same buffer. -/
structure Arr where
  buf : ℕ
  off : ℕ
  shape : List ℕ
deriving DecidableEq

/-- `numpy.ndarray.size`: the product of the shape (1 for a 0-d scalar). -/
def Arr.size (a : Arr) : ℕ := a.shape.prod

/-- The global store of numpy buffers, each a flat list of rationals. -/
abbrev Store : Type := List (List ℚ)

/-- Read the data of a view out of the store (row-major, flattened). -/
def readArr (st : Store) (a : Arr) : List ℚ :=
  ((List.getD st a.buf []).drop a.off).take a.size

/-- Allocate a fresh buffer holding `data` and return a full view of it. -/
def allocArr (st : Store) (shape : List ℕ) (data : List ℚ) : Store × Arr :=
  (st ++ [data], ⟨List.length st, 0, shape⟩)

/-- In-place elementwise write through a view (`a[i] = v` for a flat index):
mutates the underlying shared buffer. -/
def writeAt (st : Store) (a : Arr) (i : ℕ) (v : ℚ) : Store :=
  List.set st a.buf (List.set (List.getD st a.buf []) (a.off + i) v)

/-- Basic slicing `a[i:j]` along axis 0 with numpy clipping semantics: a view
into the same buffer.  A 0-d array cannot be sliced (`none`). -/
def Arr.slice (a : Arr) (i j : ℕ) : Option Arr :=
  match a.shape with
  | [] => none
  | d :: rest =>
    some ⟨a.buf, a.off + min i d * rest.prod, (min j d - min i d) :: rest⟩

/-- A `twobody.KeplerElements` object: the internal fields of the orbit
template that `get_orbit` pokes (`_P`, `_e`, `_a`, `_omega`, `_M0`), plus the
`Omega` and inclination fields fixed at template construction.  Field values
live in the abstract value field `F` because the semi-major axis involves
`np.sqrt` and `2*np.pi`. -/
structure KElems (F : Type) where
  P : F
  e : F
  a : F
  omega : F
  M0 : F
  Omega : F
  incl : F
deriving DecidableEq

/-- A `twobody.KeplerOrbit` object: a reference to a `KElems` object in the
elements store (shared under `copy.copy`, which is shallow), and the `_v0`
attribute, which lives on the orbit object itself. -/
structure KOrbit (F : Type) where
  elems : ℕ
  v0 : Option F
deriving DecidableEq

/-- The store of `KeplerElements` objects. -/
abbrev OStore (F : Type) : Type := List (KElems F)

/-- The store of `_cache` dictionaries, one per constructed container; each
holds the cached template orbit once `get_orbit` has populated it. -/
abbrev CacheStore (F : Type) : Type := List (Option (KOrbit F))

/-- The `JokerSamples` container: insertion-ordered entries (an
`OrderedDict`), the reference epoch `t0` (as a barycentric MJD), the `_shape`
and `_size` attributes (`none` until the first successful assignment), and
the index of this container's `_cache` dictionary in the cache store
(`copy.copy` copies the reference, not the dictionary). -/
structure JokerSamples where
  entries : List (String × Arr)
  t0 : Option ℚ
  shape? : Option (List ℕ)
  size? : Option ℕ
  cacheRef : ℕ
deriving DecidableEq

/-- The `ValueError`s (and `IndexError`) raised by the container. -/
inductive JErr where
  | invalidKey : JErr
  | shapeMismatch : JErr
  | noSamples : JErr
  | idxError : JErr
deriving DecidableEq

def kP : String := "P"

def kM0 : String := "M0"

def ke : String := "e"

def komega : String := "omega"

def kjitter : String := "jitter"

def kK : String := "K"

def kv0 : String := "v0"

/-- `JokerSamples._valid_keys` (`samples.py` line 20). -/
def valid_keys : List String := [kP, kM0, ke, komega, kjitter, kK, kv0]

/-- Association-list lookup (first entry wins, like a dict with unique keys). -/
def alookup {α : Type} : List (String × α) → String → Option α
  | [], _ => none
  | p :: rest, k => if p.1 = k then some p.2 else alookup rest k

/-- Dict-style insert-or-replace preserving position. -/
def upsert : List (String × Arr) → String → Arr → List (String × Arr)
  | [], k, v => [(k, v)]
  | p :: rest, k, v =>
    if p.1 = k then (k, v) :: rest else p :: upsert rest k v

/-- `Get(key)` for a string key: the stored array, unchanged. -/
def getVal (js : JokerSamples) (k : String) : Option Arr :=
  alookup js.entries k

/-- `JokerSamples._validate_key` (`samples.py` lines 47-49). -/
def validate_key (k : String) : Except JErr Unit :=
  if k ∈ valid_keys then Except.ok () else Except.error JErr.invalidKey

/-- `JokerSamples._validate_val` (`samples.py` lines 51-58): the
`u.Quantity(val)` conversion is the identity on our already-array values; the
shape check fires only once a shape has been established. -/
def validate_val (js : JokerSamples) (a : Arr) : Except JErr Arr :=
  match js.shape? with
  | some s => if a.shape ≠ s then Except.error JErr.shapeMismatch else Except.ok a
  | none => Except.ok a

/-- `JokerSamples.__setitem__` (`samples.py` lines 74-82): validate the key,
validate the value, fix `_shape`/`_size` on the first successful assignment,
and store. -/
def setitem (js : JokerSamples) (k : String) (a : Arr) : Except JErr JokerSamples :=
  match validate_key k with
  | Except.error err => Except.error err
  | Except.ok _ =>
    match validate_val js a with
    | Except.error err => Except.error err
    | Except.ok v =>
      match js.shape? with
      | none => Except.ok { js with
          entries := upsert js.entries k v,
          shape? := some v.shape,
          size? := some v.size }
      | some _ => Except.ok { js with entries := upsert js.entries k v }

/-- The `size` property (`samples.py` lines 90-94): raises `ValueError` when
no samples are stored. -/
def JokerSamples.size (js : JokerSamples) : Except JErr ℕ :=
  match js.size? with
  | none => Except.error JErr.noSamples
  | some n => Except.ok n

/-- The loop of the slicing branch of `__getitem__`:
`for k in self.keys(): new[k] = self[k][slc]`. -/
def goSlice : List (String × Arr) → ℕ → ℕ → JokerSamples → Except JErr JokerSamples
  | [], _, _, acc => Except.ok acc
  | (k, a) :: rest, i, j, acc =>
    match a.slice i j with
    | none => Except.error JErr.idxError
    | some w =>
      match setitem acc k w with
      | Except.error err => Except.error err
      | Except.ok acc2 => goSlice rest i j acc2

/-- The non-string branch of `JokerSamples.__getitem__` (`samples.py` lines
60-72) for a basic slice `i:j`: `copy.copy(self)` yields a container sharing
the parent's `_cache` dictionary (the reference is copied, not the dict),
`_size`/`_shape` are reset, and every key is reassigned to `self[k][i:j]`,
which for numpy basic slicing is a view into the parent's buffer. -/
def getSlice (js : JokerSamples) (i j : ℕ) : Except JErr JokerSamples :=
  goSlice js.entries i j { js with shape? := none, size? := none }

/-- An h5py file or group: named datasets (shape and flattened values) plus
the optional scalar root attribute `t0_bmjd` (a barycentric MJD). -/
structure HFile where
  dsets : List (String × (List ℕ × List ℚ))
  t0attr : Option ℚ
deriving DecidableEq

/-- Modelled from the spec: `quantity_to_hdf5(f, key, q)` lives in
`thejoker/utils.py`, which is not under `src/`.  Per the spec it is the
quantity-to-storage codec: it writes the array's values under a dataset named
by the key (the unit metadata it also preserves plays no role in the claims
and is not modelled). -/
def quantity_to_hdf5 (st : Store) (f : HFile) (k : String) (a : Arr) : HFile :=
  { f with dsets := f.dsets ++ [(k, (a.shape, readArr st a))] }

/-- `JokerSamples.to_hdf5` (`samples.py` lines 134-145): write every stored
key, then the `t0_bmjd` attribute (as `self.t0.tcb.mjd`; `t0` is modelled
directly as its TCB MJD value) when `t0` is set. -/
def to_hdf5 (st : Store) (js : JokerSamples) (f : HFile) : HFile :=
  let f2 := js.entries.foldl (fun acc p => quantity_to_hdf5 st acc p.1 p.2) f
  match js.t0 with
  | none => f2
  | some t => { f2 with t0attr := some t }

/-- Modelled from the spec: `quantity_from_hdf5(f, key, n)` (also from
`thejoker/utils.py`) reads a dataset back as a quantity, optionally truncated
to the first `n` rows, allocating a fresh array. -/
def quantity_from_hdf5 (st : Store) (sh : List ℕ) (d : List ℚ) (n : Option ℕ) :
    Store × Arr :=
  match n, sh with
  | none, _ => allocArr st sh d
  | some _, [] => allocArr st [] d
  | some m, d0 :: rest => allocArr st (min m d0 :: rest) (d.take (min m d0 * rest.prod))

/-- `JokerSamples.__init__` without keyword arrays (`samples.py` lines 22-45):
a fresh container with a freshly allocated `_cache` dictionary. -/
def mkSamples {F : Type} (cs : CacheStore F) (t0 : Option ℚ) :
    CacheStore F × JokerSamples :=
  (cs ++ [none],
   { entries := [], t0 := t0, shape? := none, size? := none, cacheRef := List.length cs })

/-- The key loop of `from_hdf5`:
`for key in cls._valid_keys: if key in f: samples[key] = quantity_from_hdf5(...)`. -/
def restoreFold : List String → HFile → Option ℕ → Store → JokerSamples →
    Store × Except JErr JokerSamples
  | [], _, _, st, acc => (st, Except.ok acc)
  | k :: rest, f, n, st, acc =>
    match alookup f.dsets k with
    | none => restoreFold rest f n st acc
    | some (sh, d) =>
      let p := quantity_from_hdf5 st sh d n
      match setitem acc k p.2 with
      | Except.error err => (p.1, Except.error err)
      | Except.ok acc2 => restoreFold rest f n p.1 acc2

/-- `JokerSamples.from_hdf5` (`samples.py` lines 109-132): read the reference
epoch from the `t0_bmjd` attribute when present, construct an empty
container, then assign every valid key present in the file, in `_valid_keys`
order. -/
def from_hdf5 {F : Type} (cs : CacheStore F) (st : Store) (f : HFile) (n : Option ℕ) :
    CacheStore F × (Store × Except JErr JokerSamples) :=
  let p := mkSamples cs f.t0attr
  (p.1, restoreFold valid_keys f n st p.2)

/-- `np.mean` over all elements of a stored array: a freshly allocated 0-d
scalar holding the arithmetic mean.  (numpy's NaN-with-warning on an empty
array is not modelled; the claims concern populated containers.) -/
def np_mean (st : Store) (a : Arr) : Store × Arr :=
  allocArr st [] [(readArr st a).sum / (a.size : ℚ)]

/-- The per-key reduction loop of `JokerSamples._apply`: `kw[k] = func(self[k])`. -/
def applyMap (func : Store → Arr → Store × Arr) :
    Store → List (String × Arr) → Store × List (String × Arr)
  | st, [] => (st, [])
  | st, (k, a) :: rest =>
    let p := func st a
    let q := applyMap func p.1 rest
    (q.1, (k, p.2) :: q.2)

/-- The keyword-assignment loop of `JokerSamples.__init__`:
`for key, val in kwargs.items(): self[key] = val`. -/
def initFold : List (String × Arr) → JokerSamples → Except JErr JokerSamples
  | [], acc => Except.ok acc
  | (k, a) :: rest, acc =>
    match setitem acc k a with
    | Except.error err => Except.error err
    | Except.ok acc2 => initFold rest acc2

/-- `JokerSamples._apply(func)` (`samples.py` lines 200-207): build the
reduced keyword dictionary in key order and construct a new container from it
(the source does not forward `t0`). -/
def applyFunc {F : Type} (cs : CacheStore F) (st : Store) (js : JokerSamples)
    (func : Store → Arr → Store × Arr) :
    CacheStore F × (Store × Except JErr JokerSamples) :=
  let p := applyMap func st js.entries
  let q := mkSamples cs none
  (q.1, (p.1, initFold p.2 q.2))

/-- `JokerSamples.mean` (`samples.py` lines 209-211): `self._apply(np.mean)`. -/
def mean {F : Type} (cs : CacheStore F) (st : Store) (js : JokerSamples) :
    CacheStore F × (Store × Except JErr JokerSamples) :=
  applyFunc cs st js np_mean

/-- `JokerSamples.median` (`samples.py` lines 213-215): the source body is
`self._apply(np.mean)` — the elementwise mean, not the median. -/
def median {F : Type} (cs : CacheStore F) (st : Store) (js : JokerSamples) :
    CacheStore F × (Store × Except JErr JokerSamples) :=
  applyFunc cs st js np_mean

/-- Scalar indexing `q[k]` of a stored 1-d quantity, read from the store.
An out-of-range index (a numpy `IndexError`) is not modelled; every theorem
keeps indices in range. -/
def indexVal (st : Store) (a : Arr) (k : ℕ) : ℚ :=
  (readArr st a).getD k 0

/-- The default array used when a key is missing; a Python `KeyError` is not
modelled — every theorem assumes the keys it reads are present. -/
def noArr : Arr := { buf := 0, off := 0, shape := [] }

/-- The cached template orbit built on the first `get_orbit` call
(`samples.py` lines 166-169): `KeplerOrbit(P=1*u.yr, e=0., omega=0*u.deg,
Omega=0*u.deg, i=90*u.deg, a=1*u.au, t0=self.t0)`, with `M0` left at its
zero default.  Every field a claim inspects is overwritten by `get_orbit`
before the orbit is returned. -/
def templateElems (F : Type) [Field F] : KElems F :=
  { P := 1, e := 0, a := 1, omega := 0, M0 := 0, Omega := 0, incl := 90 }

/-- The in-place overwrite of the shared elements object performed by
`get_orbit` for row `k` (`samples.py` lines 174-182): `_P`, `_e`, `_a`,
`_omega` and `_M0` are set from storage, with
`a_K = P*K/(2π)*sqrt(1−e²)`; the remaining fields keep their current
values. -/
def rowElems {F : Type} [Field F] (fsqrt : ℚ → F) (twoPi : F) (st : Store)
    (js : JokerSamples) (k : ℕ) (old : KElems F) : KElems F :=
  { old with
    P := ((indexVal st ((getVal js kP).getD noArr) k : ℚ) : F),
    e := ((indexVal st ((getVal js ke).getD noArr) k : ℚ) : F),
    a := ((indexVal st ((getVal js kP).getD noArr) k *
        indexVal st ((getVal js kK).getD noArr) k : ℚ) : F) / twoPi *
      fsqrt (1 - indexVal st ((getVal js ke).getD noArr) k ^ 2),
    omega := ((indexVal st ((getVal js komega).getD noArr) k : ℚ) : F),
    M0 := ((indexVal st ((getVal js kM0).getD noArr) k : ℚ) : F) }

/-- `JokerSamples.get_orbit(index)` (`samples.py` lines 150-187).  The
template orbit is cached in the container's `_cache` dictionary;
`copy.copy` produces a shallow copy, so the returned orbit shares the
template's `KeplerElements` object, whose internal fields are then
overwritten in place via `rowElems`; the `_v0` attribute is set on the
copied orbit object itself.  `fsqrt` abstracts `np.sqrt` on exact rationals
and `twoPi` the float `2*np.pi`. -/
def get_orbit {F : Type} [Field F] (fsqrt : ℚ → F) (twoPi : F) (st : Store)
    (os : OStore F) (cs : CacheStore F) (js : JokerSamples) (k : ℕ) :
    OStore F × CacheStore F × KOrbit F :=
  let tos :=
    match List.getD cs js.cacheRef none with
    | some t => (os, cs, t)
    | none =>
      let t : KOrbit F := { elems := List.length os, v0 := none }
      (os ++ [templateElems F], List.set cs js.cacheRef (some t), t)
  let orbit : KOrbit F := { elems := tos.2.2.elems, v0 := tos.2.2.v0 }
  let os2 := List.set tos.1 orbit.elems
    (rowElems fsqrt twoPi st js k (List.getD tos.1 orbit.elems (templateElems F)))
  (os2, tos.2.1,
   { orbit with v0 := some ((indexVal st ((getVal js kv0).getD noArr) k : ℚ) : F) })

/-- The loop of the `orbits` generator (`samples.py` lines 189-197):
`for i in range(len(self)): yield self.get_orbit(i)`, yielding `cnt` orbits
starting at index `i`. -/
def orbitsFrom {F : Type} [Field F] (fsqrt : ℚ → F) (twoPi : F) (st : Store)
    (js : JokerSamples) : ℕ → ℕ → OStore F → CacheStore F →
    OStore F × CacheStore F × List (KOrbit F)
  | _, 0, os, cs => (os, cs, [])
  | i, m + 1, os, cs =>
    let p := get_orbit fsqrt twoPi st os cs js i
    let q := orbitsFrom fsqrt twoPi st js (i + 1) m p.1 p.2.1
    (q.1, q.2.1, p.2.2 :: q.2.2)

/-- The `orbits` property (`samples.py` lines 189-197): `len(self)` goes
through the `size` property, which raises when no samples are stored;
otherwise the generator yields one orbit per sample, in index order. -/
def orbits {F : Type} [Field F] (fsqrt : ℚ → F) (twoPi : F) (st : Store)
    (os : OStore F) (cs : CacheStore F) (js : JokerSamples) :
    Except JErr (OStore F × CacheStore F × List (KOrbit F)) :=
  match js.size? with
  | none => Except.error JErr.noSamples
  | some nsamp => Except.ok (orbitsFrom fsqrt twoPi st js 0 nsamp os cs)

theorem alookup_upsert_self (l : List (String × Arr)) (k : String) (v : Arr) :
    alookup (upsert l k v) k = some v := by
  induction l with
  | nil => simp [upsert, alookup]
  | cons p rest ih =>
    by_cases h : p.1 = k
    · simp [upsert, h, alookup]
    · simp [upsert, h, alookup, ih]

theorem alookup_upsert_ne (l : List (String × Arr)) (k k2 : String) (v : Arr)
    (h : k2 ≠ k) : alookup (upsert l k v) k2 = alookup l k2 := by
  induction l with
  | nil => simp [upsert, alookup, Ne.symm h]
  | cons p rest ih =>
    by_cases hp : p.1 = k
    · simp [upsert, hp, alookup, Ne.symm h, ih]
    · by_cases hp2 : p.1 = k2
      · simp [upsert, hp, alookup, hp2, h]
      · simp [upsert, hp, alookup, hp2, ih]

theorem alookup_map {α β : Type} (l : List (String × α)) (g : α → β) (k : String) :
    alookup (l.map (fun p => (p.1, g p.2))) k = (alookup l k).map g := by
  induction l with
  | nil => simp [alookup]
  | cons p rest ih =>
    by_cases h : p.1 = k
    · simp [alookup, h]
    · simp [alookup, h, ih]

theorem alookup_eq_none_of_not_mem {α : Type} (l : List (String × α)) (k : String)
    (h : k ∉ l.map Prod.fst) : alookup l k = none := by
  induction l with
  | nil => simp [alookup]
  | cons p rest ih =>
    simp only [List.map_cons, List.mem_cons] at h
    push_neg at h
    simp [alookup, Ne.symm h.1, ih h.2]

theorem mem_of_alookup_isSome {α : Type} (l : List (String × α)) (k : String)
    (h : (alookup l k).isSome) : k ∈ l.map Prod.fst := by
  induction l with
  | nil => simp [alookup] at h
  | cons p rest ih =>
    by_cases hp : p.1 = k
    · simp [hp.symm]
    · simp only [alookup, hp, if_false] at h
      simp [ih h]

/-- A freshly constructed empty container with `_cache` index 0. -/
def emptySamples : JokerSamples :=
  { entries := [], t0 := none, shape? := none, size? := none, cacheRef := 0 }

/-- Claim C4: `__setitem__` fails with an InvalidKey error unless the key is
in the fixed set `{P, M0, e, omega, jitter, K, v0}`; fails with a
ShapeMismatch error when a shape has been established and the new value's
shape differs; and the first successful assignment fixes the container's
shape and size for all future assignments — any later mismatching assignment
fails and any later matching assignment leaves the established shape and
size unchanged. -/
theorem setitem_behavior (js : JokerSamples) (k : String) (a : Arr) :
    (k ∉ valid_keys → setitem js k a = Except.error JErr.invalidKey) ∧
    (∀ s, k ∈ valid_keys → js.shape? = some s → a.shape ≠ s →
      setitem js k a = Except.error JErr.shapeMismatch) ∧
    (k ∈ valid_keys → js.shape? = none →
      ∃ js2, setitem js k a = Except.ok js2 ∧
        js2.shape? = some a.shape ∧ js2.size? = some a.size ∧
        (∀ k2 b, k2 ∈ valid_keys → b.shape ≠ a.shape →
          setitem js2 k2 b = Except.error JErr.shapeMismatch) ∧
        (∀ k2 b, k2 ∈ valid_keys → b.shape = a.shape →
          ∃ js3, setitem js2 k2 b = Except.ok js3 ∧
            js3.shape? = some a.shape ∧ js3.size? = some a.size)) := by
  refine ⟨fun hk => ?_, fun s hk hs hne => ?_, fun hk hs => ?_⟩
  · simp [setitem, validate_key, hk]
  · simp [setitem, validate_key, hk, validate_val, hs, hne]
  · refine ⟨{ js with
        entries := upsert js.entries k a,
        shape? := some a.shape,
        size? := some a.size }, ?_, rfl, rfl, ?_, ?_⟩
    · simp [setitem, validate_key, hk, validate_val, hs]
    · intro k2 b hk2 hne
      simp [setitem, validate_key, hk2, validate_val, hne]
    · intro k2 b hk2 he
      refine ⟨{ js with
          entries := upsert (upsert js.entries k a) k2 b,
          shape? := some a.shape,
          size? := some a.size }, ?_, rfl, rfl⟩
      simp [setitem, validate_key, hk2, validate_val, he]

/-- Claim C4, witness: on an empty container, assigning the valid key `P` a
shape-`[2]` array succeeds and fixes the shape; a subsequent mismatching
assignment to `e` fails with ShapeMismatch, and an invalid key fails with
InvalidKey. -/
theorem setitem_behavior_witness :
    ∃ js2, setitem emptySamples kP { buf := 0, off := 0, shape := [2] } = Except.ok js2 ∧
      js2.shape? = some [2] ∧ js2.size? = some 2 ∧
      (∀ k2 b, k2 ∈ valid_keys → b.shape ≠ [2] →
        setitem js2 k2 b = Except.error JErr.shapeMismatch) ∧
      (∀ k2 b, k2 ∈ valid_keys → b.shape = [2] →
        ∃ js3, setitem js2 k2 b = Except.ok js3 ∧
          js3.shape? = some [2] ∧ js3.size? = some 2) := by
  have h := (setitem_behavior emptySamples kP { buf := 0, off := 0, shape := [2] }).2.2
    (by decide) rfl
  simpa using h

theorem alookup_mem {α : Type} (l : List (String × α)) (k : String) (a : α)
    (h : alookup l k = some a) : (k, a) ∈ l := by
  induction l with
  | nil => cases h
  | cons p rest ih =>
    obtain ⟨k1, v1⟩ := p
    by_cases hp : k1 = k
    · simp only [alookup, hp, if_pos] at h
      subst hp
      have hv : v1 = a := Option.some.inj h
      subst hv
      exact List.mem_cons_self _ _
    · simp only [alookup, hp, if_neg, if_false] at h
      right
      exact ih h

/-- The view produced by slicing a 1-d array of length `d`. -/
def Arr.slice1 (a : Arr) (i j d : ℕ) : Arr :=
  { buf := a.buf, off := a.off + min i d, shape := [min j d - min i d] }

theorem Arr.slice_eq_slice1 (a : Arr) (i j d : ℕ) (h : a.shape = [d]) :
    a.slice i j = some (a.slice1 i j d) := by
  simp [Arr.slice, h, Arr.slice1]

/-- Setting a valid key on a container whose established shape (if any)
matches the value succeeds, preserving `t0` and the `_cache` reference. -/
theorem setitem_ok (acc : JokerSamples) (k0 : String) (w : Arr)
    (hk0 : k0 ∈ valid_keys)
    (hacc : acc.shape? = none ∨ acc.shape? = some w.shape) :
    ∃ acc2, setitem acc k0 w = Except.ok acc2 ∧
      acc2.entries = upsert acc.entries k0 w ∧
      acc2.t0 = acc.t0 ∧ acc2.cacheRef = acc.cacheRef ∧
      acc2.shape? = some w.shape := by
  rcases hacc with h | h
  · refine ⟨{ acc with
        entries := upsert acc.entries k0 w,
        shape? := some w.shape,
        size? := some w.size }, ?_, rfl, rfl, rfl, rfl⟩
    simp [setitem, validate_key, hk0, validate_val, h]
  · refine ⟨{ acc with entries := upsert acc.entries k0 w }, ?_, rfl, rfl, rfl, by simp [h]⟩
    simp [setitem, validate_key, hk0, validate_val, h]

theorem goSlice_spec (i j d : ℕ) (l : List (String × Arr)) :
    ∀ (acc : JokerSamples),
      (∀ p ∈ l, p.1 ∈ valid_keys) →
      (∀ p ∈ l, Arr.shape p.2 = [d]) →
      (List.map Prod.fst l).Nodup →
      (acc.shape? = none ∨ acc.shape? = some [min j d - min i d]) →
      ∃ sl, goSlice l i j acc = Except.ok sl ∧
        sl.cacheRef = acc.cacheRef ∧
        sl.t0 = acc.t0 ∧
        ∀ k, getVal sl k =
          (match alookup l k with
           | some a => some (a.slice1 i j d)
           | none => getVal acc k) := by
  induction l with
  | nil =>
    intro acc _ _ _ _
    exact ⟨acc, rfl, rfl, rfl, fun k => by simp [alookup]⟩
  | cons p rest ih =>
    intro acc hkeys hsh hnd hacc
    obtain ⟨k0, a0⟩ := p
    have hsh0 : a0.shape = [d] := hsh (k0, a0) (by simp)
    have hk0 : k0 ∈ valid_keys := hkeys (k0, a0) (by simp)
    have hw : (Arr.slice1 a0 i j d).shape = [min j d - min i d] := rfl
    obtain ⟨acc2, hset, hent, ht0, hcache, hshape⟩ :=
      setitem_ok acc k0 (Arr.slice1 a0 i j d) hk0 (by rw [hw]; exact hacc)
    simp only [List.map_cons, List.nodup_cons] at hnd
    obtain ⟨sl, hgo, hc2, ht2, hval⟩ := ih acc2
      (fun q hq => hkeys q (by simp [hq]))
      (fun q hq => hsh q (by simp [hq]))
      hnd.2 (Or.inr (by rw [hshape]; rfl))

    refine ⟨sl, ?_, by rw [hc2, hcache], by rw [ht2, ht0], ?_⟩
    · rw [goSlice, Arr.slice_eq_slice1 a0 i j d hsh0]
      simp only [hset]
      exact hgo
    · intro k
      rw [hval k]
      by_cases hk : k0 = k
      · subst hk
        have hnone : alookup rest k0 = none :=
          alookup_eq_none_of_not_mem rest k0 hnd.1
        simp [alookup, hnone, getVal, hent, alookup_upsert_self]
      · simp only [alookup, hk, if_neg (fun hc => hk hc)]
        cases hrest : alookup rest k with
        | some b => rfl
        | none =>
          simp only [getVal, hent]
          rw [alookup_upsert_ne _ _ _ _ (fun hc => hk hc.symm)]
          simp

/-- Reading a 1-d slice view equals the `i:j` slice of the parent's data. -/
theorem readArr_slice1 (st : Store) (a : Arr) (i j d : ℕ) (h : a.shape = [d]) :
    readArr st (a.slice1 i j d) =
      ((readArr st a).drop (min i d)).take (min j d - min i d) := by
  unfold readArr Arr.slice1 Arr.size
  simp only [h, List.prod_cons, List.prod_nil, mul_one]
  rw [List.drop_take, List.drop_drop, List.take_take]
  congr 1
  omega

/-- Claim C5, amended: slicing yields a new container of the same type whose
every key holds a value equal to `original[key][i:j]`, with `_shape`/`_size`
reset and recomputed — but the new container is NOT independent of the
original: each sliced array is a numpy view sharing the parent's buffer
(mutating it in place mutates the parent's data), and the `_cache` dictionary
reference is shared with the parent (`copy.copy` is shallow). -/
theorem getSlice_spec (js : JokerSamples) (st : Store) (i j d : ℕ)
    (hkeys : ∀ p ∈ js.entries, p.1 ∈ valid_keys)
    (hsh : ∀ p ∈ js.entries, Arr.shape p.2 = [d])
    (hnd : (List.map Prod.fst js.entries).Nodup) :
    ∃ sl, getSlice js i j = Except.ok sl ∧
      sl.cacheRef = js.cacheRef ∧
      sl.t0 = js.t0 ∧
      ∀ k a, getVal js k = some a →
        getVal sl k = some (a.slice1 i j d) ∧
        (a.slice1 i j d).buf = a.buf ∧
        readArr st (a.slice1 i j d) =
          ((readArr st a).drop (min i d)).take (min j d - min i d) := by
  obtain ⟨sl, h1, h2, h3, h4⟩ := goSlice_spec i j d js.entries
    { js with shape? := none, size? := none } hkeys hsh hnd (Or.inl rfl)
  refine ⟨sl, h1, h2, h3, fun k a hka => ⟨?_, rfl, ?_⟩⟩
  · rw [h4 k]
    have : alookup js.entries k = some a := hka
    rw [this]
  · exact readArr_slice1 st a i j d (hsh (k, a) (alookup_mem js.entries k a hka))

instance exceptDecEq {ε α : Type} [DecidableEq ε] [DecidableEq α] :
    DecidableEq (Except ε α) := fun a b =>
  match a, b with
  | Except.error e1, Except.error e2 =>
    if h : e1 = e2 then isTrue (by rw [h]) else
      isFalse (by intro hc; cases hc; exact h rfl)
  | Except.ok v1, Except.ok v2 =>
    if h : v1 = v2 then isTrue (by rw [h]) else
      isFalse (by intro hc; cases hc; exact h rfl)
  | Except.error _, Except.ok _ => isFalse (by intro hc; cases hc)
  | Except.ok _, Except.error _ => isFalse (by intro hc; cases hc)

/-- A concrete one-key parent container over the buffer `[1, 2, 3]`. -/
def sliceParent : JokerSamples where
  entries := [(kP, { buf := 0, off := 0, shape := [3] })]
  t0 := none
  shape? := some [3]
  size? := some 3
  cacheRef := 0

/-- The container produced by `sliceParent[0:2]`. -/
def sliceChild : JokerSamples where
  entries := [(kP, { buf := 0, off := 0, shape := [2] })]
  t0 := none
  shape? := some [2]
  size? := some 2
  cacheRef := 0

/-- Claim C5, witness for the amended statement, at the concrete container. -/
theorem getSlice_spec_witness :
    ∃ sl, getSlice sliceParent 0 2 = Except.ok sl ∧
      sl.cacheRef = sliceParent.cacheRef ∧
      sl.t0 = sliceParent.t0 ∧
      ∀ k a, getVal sliceParent k = some a →
        getVal sl k = some (a.slice1 0 2 3) ∧
        (a.slice1 0 2 3).buf = a.buf ∧
        readArr [[1, 2, 3]] (a.slice1 0 2 3) =
          ((readArr [[1, 2, 3]] a).drop (min 0 3)).take (min 2 3 - min 0 3) :=
  getSlice_spec sliceParent [[1, 2, 3]] 0 2 3 (by decide) (by decide) (by decide)

/-- Claim C5, counterexample to independence: slicing `sliceParent[0:2]`
yields `sliceChild`, whose `P` array is a view into the parent's buffer —
writing `99` into element 0 of the slice's array changes the parent's stored
data from `[1, 2, 3]` to `[99, 2, 3]` — and whose `_cache` dictionary is the
parent's own (same reference), contradicting the claimed deep-data
independence and cache non-aliasing. -/
theorem getSlice_aliasing_cex :
    getSlice sliceParent 0 2 = Except.ok sliceChild ∧
    readArr [[1, 2, 3]] { buf := 0, off := 0, shape := [3] } = [1, 2, 3] ∧
    writeAt [[1, 2, 3]] { buf := 0, off := 0, shape := [2] } 0 99 = [[99, 2, 3]] ∧
    readArr [[99, 2, 3]] { buf := 0, off := 0, shape := [3] } = [99, 2, 3] ∧
    sliceChild.cacheRef = sliceParent.cacheRef :=
  ⟨by decide, by decide, by decide, by decide, rfl⟩

theorem readArr_append (st : Store) (l2 : List (List ℚ)) (a : Arr)
    (h : a.buf < List.length st) : readArr (st ++ l2) a = readArr st a := by
  unfold readArr
  simp [List.getD_eq_getElem?_getD, List.getElem?_append, h]

theorem to_hdf5_foldl (st : Store) (l : List (String × Arr)) (f : HFile) :
    l.foldl (fun acc p => quantity_to_hdf5 st acc p.1 p.2) f =
      { f with dsets := f.dsets ++ l.map (fun p => (p.1, (p.2.shape, readArr st p.2))) } := by
  induction l generalizing f with
  | nil => simp
  | cons p rest ih =>
    rw [List.foldl_cons, ih]
    simp [quantity_to_hdf5]

/-- The file contents produced by persisting a container into an empty file:
one dataset per entry, in order, plus the reference epoch. -/
def persistedFile (st : Store) (js : JokerSamples) : HFile :=
  { dsets := js.entries.map (fun p => (p.1, (p.2.shape, readArr st p.2))), t0attr := js.t0 }

/-- Writing a container into an empty file records exactly its entries (key,
shape, data) in order, and its reference epoch. -/
theorem to_hdf5_spec (st : Store) (js : JokerSamples) :
    to_hdf5 st js { dsets := [], t0attr := none } = persistedFile st js := by
  unfold to_hdf5 persistedFile
  rw [to_hdf5_foldl]
  cases h : js.t0 with
  | none => simp [h]
  | some t => simp [h]

theorem alookup_map_entry (st : Store) (l : List (String × Arr)) (k : String) :
    alookup (l.map (fun p => (p.1, (p.2.shape, readArr st p.2)))) k =
      (alookup l k).map (fun a => (a.shape, readArr st a)) :=
  alookup_map l (fun a => (a.shape, readArr st a)) k

theorem restoreFold_spec (f : HFile) (s : List ℕ)
    (hall : ∀ k sh dta, alookup f.dsets k = some (sh, dta) → sh = s) :
    ∀ (keys : List String), (∀ k ∈ keys, k ∈ valid_keys) → keys.Nodup →
    ∀ (st : Store) (acc : JokerSamples),
      (acc.shape? = none ∨ acc.shape? = some s) →
      ∃ st2 js2, restoreFold keys f none st acc = (st2, Except.ok js2) ∧
        js2.t0 = acc.t0 ∧
        List.length st ≤ List.length st2 ∧
        (∀ a : Arr, a.buf < List.length st → readArr st2 a = readArr st a) ∧
        (∀ k, k ∉ keys → getVal js2 k = getVal acc k) ∧
        (∀ k, k ∈ keys → alookup f.dsets k = none → getVal js2 k = getVal acc k) ∧
        (∀ k sh dta, k ∈ keys → alookup f.dsets k = some (sh, dta) →
          ∃ b, getVal js2 k = some b ∧ b.shape = sh ∧
            readArr st2 b = dta.take sh.prod) := by
  intro keys
  induction keys with
  | nil =>
    intro _ _ st acc _
    exact ⟨st, acc, rfl, rfl, le_refl _, fun a _ => rfl, fun k _ => rfl,
      fun k hk => absurd hk (List.not_mem_nil k), fun k sh dta hk => absurd hk (List.not_mem_nil k)⟩
  | cons k0 rest ih =>
    intro hkv hnd st acc hacc
    simp only [List.nodup_cons] at hnd
    cases hlk : alookup f.dsets k0 with
    | none =>
      obtain ⟨st2, js2, hfold, ht0, hlen, hpres, hout, hnone, hsome⟩ :=
        ih (fun k hk => hkv k (by simp [hk])) hnd.2 st acc hacc
      refine ⟨st2, js2, ?_, ht0, hlen, hpres, ?_, ?_, ?_⟩
      · rw [restoreFold, hlk]
        exact hfold
      · intro k hk
        exact hout k (fun hc => hk (by simp [hc]))
      · intro k hk hn
        rcases List.mem_cons.mp hk with h | h
        · subst h
          exact hout _ hnd.1
        · exact hnone k h hn
      · intro k sh dta hk hs
        rcases List.mem_cons.mp hk with h | h
        · subst h
          rw [hlk] at hs
          cases hs
        · exact hsome k sh dta h hs
    | some p =>
      obtain ⟨sh, dta⟩ := p
      have hshs : sh = s := hall k0 sh dta hlk
      have hb0 : (Arr.mk (List.length st) 0 sh).shape = sh := rfl
      obtain ⟨acc2, hset, hent, hat0, hacache, hashape⟩ :=
        setitem_ok acc k0 (Arr.mk (List.length st) 0 sh) (hkv k0 (by simp))
          (by rw [hb0, hshs]; exact hacc)
      obtain ⟨st2, js2, hfold, ht0, hlen, hpres, hout, hnone, hsome⟩ :=
        ih (fun k hk => hkv k (by simp [hk])) hnd.2 (st ++ [dta]) acc2
          (Or.inr (by rw [hashape, hb0, hshs]))
      refine ⟨st2, js2, ?_, by rw [ht0, hat0], ?_, ?_, ?_, ?_, ?_⟩
      · rw [restoreFold, hlk]
        simp only [quantity_from_hdf5, allocArr, hset]
        exact hfold
      · calc List.length st ≤ List.length (st ++ [dta]) := by simp
          _ ≤ List.length st2 := hlen
      · intro a ha
        rw [hpres a (by simp; omega), readArr_append st [dta] a ha]
      · intro k hk
        have hk0 : k ≠ k0 := fun hc => hk (by simp [hc])
        rw [hout k (fun hc => hk (by simp [hc]))]
        simp only [getVal, hent]
        exact alookup_upsert_ne _ _ _ _ hk0
      · intro k hk hn
        rcases List.mem_cons.mp hk with h | h
        · subst h
          rw [hn] at hlk
          cases hlk
        · have hk0 : k ≠ k0 := fun hc => hnd.1 (hc ▸ h)
          rw [hnone k h hn]
          simp only [getVal, hent]
          exact alookup_upsert_ne _ _ _ _ hk0
      · intro k sh2 dta2 hk hs
        rcases List.mem_cons.mp hk with h | h
        · subst h
          rw [hlk] at hs
          obtain ⟨hsh2, hdta2⟩ := Prod.mk.injEq .. ▸ (Option.some.inj hs)
          refine ⟨Arr.mk (List.length st) 0 sh, ?_, by rw [hb0, hsh2], ?_⟩
          · rw [hout k (fun hc => hnd.1 hc), getVal, hent]
            exact alookup_upsert_self _ _ _
          · rw [hpres _ (by simp)]
            rw [← hsh2, ← hdta2]
            unfold readArr Arr.size
            simp [List.getD_eq_getElem?_getD]
        · exact hsome k sh2 dta2 h hs

/-- Claim C6: `Persist` (`to_hdf5` into an empty file) followed by `Restore`
(`from_hdf5`) reproduces an equal container: the same keys, the same values
(exactly, in this rational embedding), and the same reference epoch `t0`,
for any container with at least one key and at least one sample. -/
theorem hdf5_round_trip {F : Type} (cs : CacheStore F) (st : Store) (js : JokerSamples)
    (s : List ℕ)
    (hkeys : ∀ p ∈ js.entries, p.1 ∈ valid_keys)
    (hsh : ∀ p ∈ js.entries, Arr.shape p.2 = s)
    (hnd : (List.map Prod.fst js.entries).Nodup)
    (hone : js.entries ≠ [])
    (nsmp : ℕ) (hsize : js.size? = some nsmp) (hpos : 0 < nsmp) :
    ∃ st2 js2,
      from_hdf5 cs st (to_hdf5 st js { dsets := [], t0attr := none }) none =
        (cs ++ [none], (st2, Except.ok js2)) ∧
      js2.t0 = js.t0 ∧
      (∀ k, (getVal js2 k).isSome = (getVal js k).isSome) ∧
      (∀ k a, getVal js k = some a → ∃ b, getVal js2 k = some b ∧
        b.shape = a.shape ∧ readArr st2 b = readArr st a) := by
  rw [to_hdf5_spec]
  have hall : ∀ k sh dta, alookup (persistedFile st js).dsets k = some (sh, dta) → sh = s := by
    intro k sh dta h
    rw [persistedFile, alookup_map_entry] at h
    cases ha : alookup js.entries k with
    | none => rw [ha] at h; cases h
    | some a =>
      rw [ha] at h
      have h2 := Option.some.inj h
      have hsh2 : a.shape = sh := congrArg Prod.fst h2
      rw [← hsh2]
      exact hsh (k, a) (alookup_mem js.entries k a ha)
  obtain ⟨st2, js2, hfold, ht0, _, _, hout, hnone, hsome⟩ :=
    restoreFold_spec (persistedFile st js) s hall valid_keys (fun k hk => hk) (by decide) st
      (mkSamples cs (persistedFile st js).t0attr).2 (Or.inl rfl)
  refine ⟨st2, js2, ?_, ?_, ?_, ?_⟩
  · show ((mkSamples cs (persistedFile st js).t0attr).1,
        restoreFold valid_keys (persistedFile st js) none st
          (mkSamples cs (persistedFile st js).t0attr).2) =
      (cs ++ [none], (st2, Except.ok js2))
    rw [hfold]
    rfl
  · rw [ht0]
    rfl
  · intro k
    cases ha : alookup js.entries k with
    | none =>
      have hgv : getVal js k = none := ha
      by_cases hkv : k ∈ valid_keys
      · have hfn : alookup (persistedFile st js).dsets k = none := by
          rw [persistedFile, alookup_map_entry, ha]
          rfl
        rw [hnone k hkv hfn, hgv]
        rfl
      · rw [hout k hkv, hgv]
        rfl
    | some a =>
      have hkv : k ∈ valid_keys := hkeys (k, a) (alookup_mem js.entries k a ha)
      have hfl : alookup (persistedFile st js).dsets k = some (a.shape, readArr st a) := by
        rw [persistedFile, alookup_map_entry, ha]
        rfl
      obtain ⟨b, hb, _, _⟩ := hsome k a.shape (readArr st a) hkv hfl
      have hgv : getVal js k = some a := ha
      rw [hb, hgv]
      rfl
  · intro k a ha
    have hkv : k ∈ valid_keys := hkeys (k, a) (alookup_mem js.entries k a ha)
    have hfl : alookup (persistedFile st js).dsets k = some (a.shape, readArr st a) := by
      rw [persistedFile, alookup_map_entry]
      rw [show alookup js.entries k = some a from ha]
      rfl
    obtain ⟨b, hb, hbs, hbr⟩ := hsome k a.shape (readArr st a) hkv hfl
    refine ⟨b, hb, hbs, ?_⟩
    rw [hbr]
    apply List.take_of_length_le
    calc (readArr st a).length ≤ a.size := List.length_take_le _ _
      _ = a.shape.prod := rfl

/-- A concrete one-key, two-sample container with a reference epoch. -/
def rtSamples : JokerSamples where
  entries := [(kP, { buf := 0, off := 0, shape := [2] })]
  t0 := some 5
  shape? := some [2]
  size? := some 2
  cacheRef := 0

/-- Claim C6, witness: the round trip at a concrete container. -/
theorem hdf5_round_trip_witness :
    ∃ st2 js2,
      from_hdf5 ([] : CacheStore ℚ) [[4, 7]]
          (to_hdf5 [[4, 7]] rtSamples { dsets := [], t0attr := none }) none =
        (([] : CacheStore ℚ) ++ [none], (st2, Except.ok js2)) ∧
      js2.t0 = rtSamples.t0 ∧
      (∀ k, (getVal js2 k).isSome = (getVal rtSamples k).isSome) ∧
      (∀ k a, getVal rtSamples k = some a → ∃ b, getVal js2 k = some b ∧
        b.shape = a.shape ∧ readArr st2 b = readArr [[4, 7]] a) :=
  hdf5_round_trip [] [[4, 7]] rtSamples [2] (by decide) (by decide) (by decide)
    (by decide) 2 rfl (by decide)

/-- Claim C7: the `median` reduction returns exactly the same result as the
`mean` reduction — both source methods are `self._apply(np.mean)`, the
elementwise mean across the sample axis for every key. -/
theorem median_eq_mean {F : Type} (cs : CacheStore F) (st : Store) (js : JokerSamples) :
    median cs st js = mean cs st js := rfl

theorem getD_set_self {α : Type} (l : List α) (i : ℕ) (x d : α) (h : i < l.length) :
    List.getD (List.set l i x) i d = x := by
  simp [List.getD_eq_getElem?_getD, List.getElem?_set_self, h]

theorem getD_append_last {α : Type} (l : List α) (x d : α) :
    List.getD (l ++ [x]) (List.length l) d = x := by
  simp [List.getD_eq_getElem?_getD]

/-- `get_orbit` on a container whose `_cache` holds no template yet: the
template is built and installed, and the returned orbit references it. -/
theorem get_orbit_fresh {F : Type} [Field F] (fsqrt : ℚ → F) (twoPi : F) (st : Store)
    (os : OStore F) (cs : CacheStore F) (js : JokerSamples) (k : ℕ)
    (hcache : List.getD cs js.cacheRef none = none) :
    get_orbit fsqrt twoPi st os cs js k =
      (List.set (os ++ [templateElems F]) (List.length os)
        (rowElems fsqrt twoPi st js k (templateElems F)),
       List.set cs js.cacheRef (some { elems := List.length os, v0 := none }),
       { elems := List.length os,
         v0 := some ((indexVal st ((getVal js kv0).getD noArr) k : ℚ) : F) }) := by
  unfold get_orbit
  rw [hcache]
  dsimp only
  rw [getD_append_last]

/-- `get_orbit` on a container whose `_cache` already holds the template `t`:
the shared elements object at `t.elems` is overwritten in place and the
returned orbit references it. -/
theorem get_orbit_cached {F : Type} [Field F] (fsqrt : ℚ → F) (twoPi : F) (st : Store)
    (os : OStore F) (cs : CacheStore F) (js : JokerSamples) (k : ℕ) (t : KOrbit F)
    (hcache : List.getD cs js.cacheRef none = some t) :
    get_orbit fsqrt twoPi st os cs js k =
      (List.set os t.elems
        (rowElems fsqrt twoPi st js k (List.getD os t.elems (templateElems F))),
       cs,
       { elems := t.elems,
         v0 := some ((indexVal st ((getVal js kv0).getD noArr) k : ℚ) : F) }) := by
  unfold get_orbit
  rw [hcache]

theorem get_orbit_v0 {F : Type} [Field F] (fsqrt : ℚ → F) (twoPi : F) (st : Store)
    (os : OStore F) (cs : CacheStore F) (js : JokerSamples) (k : ℕ) :
    (get_orbit fsqrt twoPi st os cs js k).2.2.v0 =
      some ((indexVal st ((getVal js kv0).getD noArr) k : ℚ) : F) := by
  cases h : List.getD cs js.cacheRef none with
  | none => rw [get_orbit_fresh fsqrt twoPi st os cs js k h]
  | some t => rw [get_orbit_cached fsqrt twoPi st os cs js k t h]

theorem orbitsFrom_length {F : Type} [Field F] (fsqrt : ℚ → F) (twoPi : F) (st : Store)
    (js : JokerSamples) (m : ℕ) :
    ∀ (i : ℕ) (os : OStore F) (cs : CacheStore F),
      (orbitsFrom fsqrt twoPi st js i m os cs).2.2.length = m := by
  induction m with
  | zero => intro i os cs; rfl
  | succ m ih =>
    intro i os cs
    simp only [orbitsFrom]
    rw [List.length_cons, ih]

theorem orbitsFrom_v0 {F : Type} [Field F] (fsqrt : ℚ → F) (twoPi : F) (st : Store)
    (js : JokerSamples) (m : ℕ) :
    ∀ (i m2 : ℕ) (os : OStore F) (cs : CacheStore F), m2 < m →
      (List.getD (orbitsFrom fsqrt twoPi st js i m os cs).2.2 m2
          { elems := 0, v0 := none }).v0 =
        some ((indexVal st ((getVal js kv0).getD noArr) (i + m2) : ℚ) : F) := by
  induction m with
  | zero => intro i m2 os cs h; exact absurd h (Nat.not_lt_zero m2)
  | succ m ih =>
    intro i m2 os cs h
    cases m2 with
    | zero =>
      simp only [orbitsFrom, List.getD_cons_zero]
      rw [get_orbit_v0]
      simp
    | succ m2 =>
      simp only [orbitsFrom, List.getD_cons_succ]
      rw [ih (i + 1) m2 _ _ (by omega)]
      have harith : i + 1 + m2 = i + (m2 + 1) := by omega
      rw [harith]

/-- Claim C8: for a populated container of size `N` (keys `P,e,K,v0` among
those present), `get_orbit(k)` returns an orbit whose elements hold semi-major
axis `a_K = P[k]·K[k]/(2π)·sqrt(1−e[k]²)` (exactly, in this rational
embedding), and the `orbits` generator yields exactly `N` orbit objects in
index order `0..N−1` — the `m`-th yielded orbit carries the `m`-th sample's
`_v0`. -/
theorem get_orbit_and_orbits_spec {F : Type} [Field F] (fsqrt : ℚ → F) (twoPi : F)
    (st : Store) (os : OStore F) (cs : CacheStore F) (js : JokerSamples)
    (k N : ℕ) (arrP arrE arrK arrV0 : Arr)
    (hP : getVal js kP = some arrP) (hE : getVal js ke = some arrE)
    (hK : getVal js kK = some arrK) (hV : getVal js kv0 = some arrV0)
    (hsize : js.size? = some N) (hk : k < N)
    (hwfc : ∀ t : KOrbit F, List.getD cs js.cacheRef none = some t →
      t.elems < List.length os) :
    (List.getD (get_orbit fsqrt twoPi st os cs js k).1
        (get_orbit fsqrt twoPi st os cs js k).2.2.elems (templateElems F)).a =
      ((indexVal st arrP k * indexVal st arrK k : ℚ) : F) / twoPi *
        fsqrt (1 - indexVal st arrE k ^ 2) ∧
    ∃ q, orbits fsqrt twoPi st os cs js = Except.ok q ∧
      q.2.2.length = N ∧
      (∀ m, m < N → (List.getD q.2.2 m { elems := 0, v0 := none }).v0 =
        some ((indexVal st arrV0 m : ℚ) : F)) := by
  constructor
  · cases hc : List.getD cs js.cacheRef none with
    | none =>
      rw [get_orbit_fresh fsqrt twoPi st os cs js k hc]
      rw [getD_set_self _ _ _ _ (by simp)]
      simp [rowElems, hP, hE, hK]
    | some t =>
      rw [get_orbit_cached fsqrt twoPi st os cs js k t hc]
      rw [getD_set_self _ _ _ _ (hwfc t hc)]
      simp [rowElems, hP, hE, hK]
  · refine ⟨orbitsFrom fsqrt twoPi st js 0 N os cs, ?_,
      orbitsFrom_length fsqrt twoPi st js N 0 os cs, ?_⟩
    · unfold orbits
      rw [hsize]
    · intro m hm
      have h := orbitsFrom_v0 fsqrt twoPi st js N 0 m os cs hm
      rw [hV] at h
      simpa using h

/-- Claim C9, amended: `copy.copy` of the cached template orbit is shallow,
so every orbit returned by `get_orbit` references the single template
`KeplerElements` object.  On a fresh cache, a first call installs the
template and returns an orbit referencing it; a second call (for another
index) returns an orbit referencing the SAME elements object, and overwrites
it in place with the second sample's values — the mutation is visible through
the previously returned orbit and through the cached template.  Only the
`_v0` attribute, set on the copied orbit object itself, is independent per
returned orbit. -/
theorem get_orbit_shallow_copy_aliasing {F : Type} [Field F] (fsqrt : ℚ → F) (twoPi : F)
    (st : Store) (os : OStore F) (cs : CacheStore F) (js : JokerSamples) (k1 k2 : ℕ)
    (hcache : List.getD cs js.cacheRef none = none)
    (hlen : js.cacheRef < List.length cs) :
    (get_orbit fsqrt twoPi st os cs js k1).2.2.elems = List.length os ∧
    (get_orbit fsqrt twoPi st (get_orbit fsqrt twoPi st os cs js k1).1
        (get_orbit fsqrt twoPi st os cs js k1).2.1 js k2).2.2.elems =
      (get_orbit fsqrt twoPi st os cs js k1).2.2.elems ∧
    List.getD (get_orbit fsqrt twoPi st (get_orbit fsqrt twoPi st os cs js k1).1
        (get_orbit fsqrt twoPi st os cs js k1).2.1 js k2).1
        (get_orbit fsqrt twoPi st os cs js k1).2.2.elems (templateElems F) =
      rowElems fsqrt twoPi st js k2 (rowElems fsqrt twoPi st js k1 (templateElems F)) ∧
    (get_orbit fsqrt twoPi st os cs js k1).2.2.v0 =
      some ((indexVal st ((getVal js kv0).getD noArr) k1 : ℚ) : F) ∧
    (get_orbit fsqrt twoPi st (get_orbit fsqrt twoPi st os cs js k1).1
        (get_orbit fsqrt twoPi st os cs js k1).2.1 js k2).2.2.v0 =
      some ((indexVal st ((getVal js kv0).getD noArr) k2 : ℚ) : F) := by
  have h1 := get_orbit_fresh fsqrt twoPi st os cs js k1 hcache
  have hc2 : List.getD (get_orbit fsqrt twoPi st os cs js k1).2.1 js.cacheRef none =
      some { elems := List.length os, v0 := none } := by
    rw [h1]
    exact getD_set_self _ _ _ _ hlen
  have h2 := get_orbit_cached fsqrt twoPi st (get_orbit fsqrt twoPi st os cs js k1).1
    (get_orbit fsqrt twoPi st os cs js k1).2.1 js k2
    { elems := List.length os, v0 := none } hc2
  have hlen1 : List.length os < List.length (get_orbit fsqrt twoPi st os cs js k1).1 := by
    rw [h1]
    simp
  refine ⟨by rw [h1], ?_, ?_, by rw [h1], by rw [h2]⟩
  · rw [h2, h1]
  · rw [h2, h1]
    rw [getD_set_self _ _ _ _ (by simpa using hlen1)]
    dsimp only
    rw [getD_set_self _ _ _ _ (by simp)]

/-- Concrete buffers for a two-sample orbit container:
`P = [1,2]`, `e = [0,0]`, `omega = [3,4]`, `M0 = [5,6]`, `K = [7,8]`,
`v0 = [9,10]`. -/
def orbStore : Store := [[1, 2], [0, 0], [3, 4], [5, 6], [7, 8], [9, 10]]

/-- A two-sample container with all six orbit keys populated over `orbStore`. -/
def orbSamples : JokerSamples where
  entries := [(kP, { buf := 0, off := 0, shape := [2] }),
    (ke, { buf := 1, off := 0, shape := [2] }),
    (komega, { buf := 2, off := 0, shape := [2] }),
    (kM0, { buf := 3, off := 0, shape := [2] }),
    (kK, { buf := 4, off := 0, shape := [2] }),
    (kv0, { buf := 5, off := 0, shape := [2] })]
  t0 := none
  shape? := some [2]
  size? := some 2
  cacheRef := 0

/-- Claim C8, witness: the semi-major axis and generator claims evaluated at
the concrete two-sample container. -/
theorem get_orbit_and_orbits_spec_witness :
    (List.getD (get_orbit (fun _ : ℚ => (1 : ℚ)) 1 orbStore [] [none] orbSamples 0).1
        (get_orbit (fun _ : ℚ => (1 : ℚ)) 1 orbStore [] [none] orbSamples 0).2.2.elems
        (templateElems ℚ)).a =
      ((indexVal orbStore { buf := 0, off := 0, shape := [2] } 0 *
          indexVal orbStore { buf := 4, off := 0, shape := [2] } 0 : ℚ) : ℚ) / 1 *
        (fun _ : ℚ => (1 : ℚ))
          (1 - indexVal orbStore { buf := 1, off := 0, shape := [2] } 0 ^ 2) ∧
    ∃ q, orbits (fun _ : ℚ => (1 : ℚ)) 1 orbStore [] [none] orbSamples = Except.ok q ∧
      q.2.2.length = 2 ∧
      (∀ m, m < 2 → (List.getD q.2.2 m { elems := 0, v0 := none }).v0 =
        some ((indexVal orbStore { buf := 5, off := 0, shape := [2] } m : ℚ) : ℚ)) :=
  get_orbit_and_orbits_spec (fun _ : ℚ => (1 : ℚ)) 1 orbStore [] [none] orbSamples 0 2
    { buf := 0, off := 0, shape := [2] } { buf := 1, off := 0, shape := [2] }
    { buf := 4, off := 0, shape := [2] } { buf := 5, off := 0, shape := [2] }
    (by decide) (by decide) (by decide) (by decide) rfl (by decide)
    (fun t h => by simp at h)

/-- Claim C9, counterexample: with the fresh two-sample container,
`get_orbit(0)` returns an orbit referencing an elements object; the
subsequent `get_orbit(1)` returns an orbit referencing the SAME elements
object and overwrites it in place, so the elements of the orbit previously
returned for index 0 now read `P = 2` — sample 1's period — although sample
0's period is `1`.  This contradicts the claim that overwriting the element
fields of the orbit returned for one index must not change any field of the
orbit previously returned for another index. -/
theorem get_orbit_aliasing_cex :
    (get_orbit (fun _ : ℚ => (1 : ℚ)) 1 orbStore
        (get_orbit (fun _ : ℚ => (1 : ℚ)) 1 orbStore [] [none] orbSamples 0).1
        (get_orbit (fun _ : ℚ => (1 : ℚ)) 1 orbStore [] [none] orbSamples 0).2.1
        orbSamples 1).2.2.elems =
      (get_orbit (fun _ : ℚ => (1 : ℚ)) 1 orbStore [] [none] orbSamples 0).2.2.elems ∧
    (List.getD (get_orbit (fun _ : ℚ => (1 : ℚ)) 1 orbStore
        (get_orbit (fun _ : ℚ => (1 : ℚ)) 1 orbStore [] [none] orbSamples 0).1
        (get_orbit (fun _ : ℚ => (1 : ℚ)) 1 orbStore [] [none] orbSamples 0).2.1
        orbSamples 1).1
        (get_orbit (fun _ : ℚ => (1 : ℚ)) 1 orbStore [] [none] orbSamples 0).2.2.elems
        (templateElems ℚ)).P = 2 ∧
    indexVal orbStore { buf := 0, off := 0, shape := [2] } 0 = 1 ∧
    (2 : ℚ) ≠ 1 := by
  have h1 := get_orbit_fresh (fun _ : ℚ => (1 : ℚ)) 1 orbStore [] [none] orbSamples 0
    (by decide)
  have hc2 : List.getD (get_orbit (fun _ : ℚ => (1 : ℚ)) 1 orbStore [] [none]
      orbSamples 0).2.1 orbSamples.cacheRef none = some { elems := 0, v0 := none } := by
    rw [h1]
    decide
  have h2 := get_orbit_cached (fun _ : ℚ => (1 : ℚ)) 1 orbStore
    (get_orbit (fun _ : ℚ => (1 : ℚ)) 1 orbStore [] [none] orbSamples 0).1
    (get_orbit (fun _ : ℚ => (1 : ℚ)) 1 orbStore [] [none] orbSamples 0).2.1
    orbSamples 1 { elems := 0, v0 := none } hc2
  refine ⟨?_, ?_, by decide, by norm_num⟩
  · rw [h2, h1]
    rfl
  · rw [h2, h1]
    simp only [List.length_nil, List.nil_append]
    rw [getD_set_self _ _ _ _ (by simp)]
    simp only [rowElems, Rat.cast_id]
    decide

/-- Claim C9, witness for the amended statement, at the concrete container. -/
theorem get_orbit_shallow_copy_aliasing_witness :
    (get_orbit (fun _ : ℚ => (1 : ℚ)) 1 orbStore [] [none] orbSamples 0).2.2.elems =
      List.length ([] : OStore ℚ) ∧
    (get_orbit (fun _ : ℚ => (1 : ℚ)) 1 orbStore
        (get_orbit (fun _ : ℚ => (1 : ℚ)) 1 orbStore [] [none] orbSamples 0).1
        (get_orbit (fun _ : ℚ => (1 : ℚ)) 1 orbStore [] [none] orbSamples 0).2.1
        orbSamples 1).2.2.elems =
      (get_orbit (fun _ : ℚ => (1 : ℚ)) 1 orbStore [] [none] orbSamples 0).2.2.elems ∧
    List.getD (get_orbit (fun _ : ℚ => (1 : ℚ)) 1 orbStore
        (get_orbit (fun _ : ℚ => (1 : ℚ)) 1 orbStore [] [none] orbSamples 0).1
        (get_orbit (fun _ : ℚ => (1 : ℚ)) 1 orbStore [] [none] orbSamples 0).2.1
        orbSamples 1).1
        (get_orbit (fun _ : ℚ => (1 : ℚ)) 1 orbStore [] [none] orbSamples 0).2.2.elems
        (templateElems ℚ) =
      rowElems (fun _ : ℚ => (1 : ℚ)) 1 orbStore orbSamples 1
        (rowElems (fun _ : ℚ => (1 : ℚ)) 1 orbStore orbSamples 0 (templateElems ℚ)) ∧
    (get_orbit (fun _ : ℚ => (1 : ℚ)) 1 orbStore [] [none] orbSamples 0).2.2.v0 =
      some ((indexVal orbStore ((getVal orbSamples kv0).getD noArr) 0 : ℚ) : ℚ) ∧
    (get_orbit (fun _ : ℚ => (1 : ℚ)) 1 orbStore
        (get_orbit (fun _ : ℚ => (1 : ℚ)) 1 orbStore [] [none] orbSamples 0).1
        (get_orbit (fun _ : ℚ => (1 : ℚ)) 1 orbStore [] [none] orbSamples 0).2.1
        orbSamples 1).2.2.v0 =
      some ((indexVal orbStore ((getVal orbSamples kv0).getD noArr) 1 : ℚ) : ℚ) :=
  get_orbit_shallow_copy_aliasing (fun _ : ℚ => (1 : ℚ)) 1 orbStore [] [none]
    orbSamples 0 1 (by decide) (by decide)

end Samples

end TheJoker
